import Mathlib

/-!
Verification of the streaming multipart upload endpoint
(`src/httpserver/upload-file.c`).

The C file is shallowly embedded below.  Byte strings are modelled as
`List Char` (each `Char` standing for one byte); the libevent buffer
`fsm->line` is a `List Char`; the temp file is modelled by its contents
(`Option (List Char)`, `none` while no temp file has been created); the
progress registry and the form hash table are association lists with
unique keys.  C-string functions (`strstr`, `strcmp`, `strcasecmp`, ...)
act on the prefix of a list up to the first NUL byte, as in C.
-/

set_option maxRecDepth 40000
set_option maxHeartbeats 2000000

namespace Upload

/-- Carriage return byte. -/
def bCR : Char := '\r'

/-- Line feed byte. -/
def bLF : Char := '\n'

/-- NUL byte, the C string terminator. -/
def bNUL : Char := Char.ofNat 0

/-- `MAX_CONTENT_LINE` from the source: flush threshold for the line buffer. -/
def MAX_CONTENT_LINE : Nat := 10240

/-- `MAX_UPLOAD_FILE_SIZE` from the source: 100 MiB. -/
def MAX_UPLOAD_FILE_SIZE : Int := 100 * (2 ^ 20)

/-- Error codes, in the order of `enum UploadError` in the source. -/
def ERROR_FILENAME : Nat := 0

def ERROR_EXISTS : Nat := 1

def ERROR_NOT_EXIST : Nat := 2

def ERROR_SIZE : Nat := 3

def ERROR_QUOTA : Nat := 4

def ERROR_RECV : Nat := 5

def ERROR_INTERNAL : Nat := 6

/-- The view a C string function has of a byte list: everything before
the first NUL byte. -/
def cstr (l : List Char) : List Char := l.takeWhile (fun c => c ≠ bNUL)

/-- `evbuffer_readln(..., EVBUFFER_EOL_CRLF_STRICT)`: if the buffer
contains a `\r\n` pair, return the bytes before the first such pair and
the bytes after it; otherwise `none`.  The line never includes the
terminator. -/
def readln : List Char → Option (List Char × List Char)
  | [] => none
  | [_] => none
  | c :: d :: rest =>
    if c = bCR ∧ d = bLF then some ([], rest)
    else
      match readln (d :: rest) with
      | none => none
      | some (ln, r) => some (c :: ln, r)

/-- Whether a byte list contains a `\r\n` pair (i.e. `readln` would succeed). -/
def hasCRLF : List Char → Bool
  | [] => false
  | [_] => false
  | c :: d :: rest => (c = bCR ∧ d = bLF : Bool) || hasCRLF (d :: rest)

/-- Split a byte list at every `\r\n` pair (leftmost-first, as `readln`
consumes them).  Always returns at least one segment, and
`joinCRLF (splitCRLF l) = l`. -/
def splitCRLF : List Char → List (List Char)
  | [] => [[]]
  | [c] => [[c]]
  | c :: d :: rest =>
    if c = bCR ∧ d = bLF then [] :: splitCRLF rest
    else
      match splitCRLF (d :: rest) with
      | [] => [[c]]
      | s :: ss => (c :: s) :: ss

/-- Rejoin CRLF-separated segments. -/
def joinCRLF : List (List Char) → List Char
  | [] => []
  | [s] => s
  | s :: ss => s ++ bCR :: bLF :: joinCRLF ss

/-- Substring test on raw lists (needle occurs contiguously in hay). -/
def hasSub (needle : List Char) : List Char → Bool
  | [] => needle.isPrefixOf []
  | c :: t => needle.isPrefixOf (c :: t) || hasSub needle t

/-- `strstr (hay, needle) != NULL`: C's substring test, which sees the
hay only up to its first NUL byte. -/
def strstrB (hay needle : List Char) : Bool := hasSub needle (cstr hay)

/-- `g_ascii_isspace` / C `isspace` on the default locale. -/
def gisSpace (c : Char) : Bool :=
  c = ' ' || c = '\t' || c = '\n' || c = Char.ofNat 11 || c = Char.ofNat 12 || c = '\r'

/-- `g_strstrip`: remove leading and trailing ASCII whitespace. -/
def stripL (l : List Char) : List Char :=
  ((l.dropWhile gisSpace).reverse.dropWhile gisSpace).reverse

/-- ASCII lower-casing as done by C `tolower` in `strcasecmp`. -/
def lowerC (c : Char) : Char :=
  if 'A' ≤ c ∧ c ≤ 'Z' then Char.ofNat (c.toNat + 32) else c

/-- `strncasecmp (s1, s2, n) == 0` on already NUL-truncated lists. -/
def caseEqN : List Char → List Char → Nat → Bool
  | _, _, 0 => true
  | [], [], _ + 1 => true
  | [], _ :: _, _ + 1 => false
  | _ :: _, [], _ + 1 => false
  | c :: t, d :: u, n + 1 => (lowerC c == lowerC d) && caseEqN t u n

/-- `strcasecmp (s1, s2) == 0` on already NUL-truncated lists. -/
def caseEqFull : List Char → List Char → Bool
  | [], [] => true
  | [], _ :: _ => false
  | _ :: _, [] => false
  | c :: t, d :: u => (lowerC c == lowerC d) && caseEqFull t u

/-- `strchr (l, target)`: split at the first occurrence of `target`,
returning the parts before and after it; `none` if absent. -/
def splitAtChar (target : Char) : List Char → Option (List Char × List Char)
  | [] => none
  | c :: t =>
    if c = target then some ([], t)
    else
      match splitAtChar target t with
      | none => none
      | some (a, b) => some (c :: a, b)

/-- `get_mime_header_param_value`: the text between the first and the
last double quote of the param; fails when there are fewer than two
quotes.  Operates on the C-string view. -/
def get_mime_header_param_value (param : List Char) : Option (List Char) :=
  let p := cstr param
  match splitAtChar '"' p with
  | none => none
  | some (_, afterFirst) =>
    match afterFirst.reverse.dropWhile (fun c => c ≠ '"') with
    | [] => none
    | _ :: t => some t.reverse

/-- `get_http_header_param_value`: everything after the first `=`. -/
def get_http_header_param_value (param : List Char) : Option (List Char) :=
  match splitAtChar '=' (cstr param) with
  | none => none
  | some (_, v) => some v

/-- The `for (p = params; *p; ++p) if (strncasecmp (*p, key, n) == 0)`
scan used for the `name`, `filename` and `boundary` parameters: first
parameter whose name case-insensitively starts with `key`. -/
def findParamLoop (key : List Char) (n : Nat) : List (List Char) → Option (List Char)
  | [] => none
  | p :: rest => if caseEqN (cstr p) key n then some p else findParamLoop key n rest

/-- Byte-list constants used by the source. -/
def fileL : List Char := "file".toList

def nameKeyL : List Char := "name".toList

def filenameKeyL : List Char := "filename".toList

def boundaryKeyL : List Char := "boundary".toList

def cdHeaderL : List Char := "Content-Disposition".toList

def formDataL : List Char := "form-data".toList

def multipartL : List Char := "multipart/form-data".toList

def parentDirL : List Char := "parent_dir".toList

/-- `parse_mime_header`: given one MIME header line and the current
`input_name` / `file_name` of the FSM, return the updated pair, or
`none` on a parse error (C returns -1).  Headers other than
`Content-Disposition` are ignored.  Note the faithful quirks: the param
scan matches by case-insensitive *prefix*; when no `name`-prefixed param
is found the previous `input_name` is kept and only its NULL-ness is
checked; same for `filename`. -/
def parse_mime_header (header : List Char) (input_name file_name : Option (List Char)) :
    Option (Option (List Char) × Option (List Char)) :=
  match splitAtChar ':' (cstr header) with
  | none => none
  | some (hname, rest) =>
    if hname = cdHeaderL then
      let params := (List.splitOn ';' rest).map stripL
      if params.length < 2 then none
      else if caseEqFull (params.headD []) formDataL = false then none
      else
        let iname :=
          match findParamLoop nameKeyL 4 params with
          | some p => get_mime_header_param_value p
          | none => input_name
        match iname with
        | none => none
        | some iv =>
          if cstr iv = fileL then
            let fname :=
              match findParamLoop filenameKeyL 8 params with
              | some p => get_mime_header_param_value p
              | none => file_name
            match fname with
            | none => none
            | some _ => some (some iv, fname)
          else some (some iv, file_name)
    else some (input_name, file_name)

/-- `get_boundary`: extract the boundary parameter from the value of the
`Content-Type` header (`none` models both a missing header and a parse
failure). -/
def get_boundary (content_type : Option (List Char)) : Option (List Char) :=
  match content_type with
  | none => none
  | some ct =>
    let params := (List.splitOn ';' (cstr ct)).map stripL
    if params.length < 2 then none
    else if caseEqFull (params.headD []) multipartL = false then none
    else
      match findParamLoop boundaryKeyL 8 params with
      | some p => get_http_header_param_value p
      | none => none

/-- ASCII decimal digit test, as in C `strtoll`. -/
def isDigitC (c : Char) : Bool := '0' ≤ c && c ≤ '9'

/-- Numeric value of a digit run. -/
def natOfDigits (l : List Char) : Nat :=
  l.foldl (fun a c => a * 10 + (c.toNat - 48)) 0

/-- `LLONG_MAX`. -/
def LLONG_MAX : Int := 9223372036854775807

/-- `LLONG_MIN`. -/
def LLONG_MIN : Int := -9223372036854775808

/-- Clamp to the `long long` range, as `strtoll` does on overflow. -/
def clampLL (v : Int) : Int :=
  if v > LLONG_MAX then LLONG_MAX else if v < LLONG_MIN then LLONG_MIN else v

/-- `strtoll (s, NULL, 10)`: skip whitespace, optional sign, consume a
(possibly empty) digit run; no error reporting. -/
def strtoll10 (s : List Char) : Int :=
  let s0 := (cstr s).dropWhile gisSpace
  match s0 with
  | '-' :: t => clampLL (-(natOfDigits (t.takeWhile isDigitC) : Int))
  | '+' :: t => clampLL ((natOfDigits (t.takeWhile isDigitC) : Int))
  | _ => clampLL ((natOfDigits (s0.takeWhile isDigitC) : Int))

/-- `get_progress_info`: requires the `Content-Length` header and the
`X-Progress-ID` query parameter; the Content-Length value itself is
passed to `strtoll` with no error check. -/
def get_progress_info (content_length xProgressId : Option (List Char)) :
    Option (Int × List Char) :=
  match content_length with
  | none => none
  | some cl =>
    match xProgressId with
    | none => none
    | some pid => some (strtoll10 cl, pid)

/-- Association-list insert with hash-table semantics (replace the
existing binding for an equal key, `g_hash_table_insert`). -/
def kvInsert (kvs : List (List Char × List Char)) (k v : List Char) :
    List (List Char × List Char) :=
  match kvs with
  | [] => [(k, v)]
  | (k', v') :: rest => if k' = k then (k, v) :: rest else (k', v') :: kvInsert rest k v

/-- `g_hash_table_lookup` on an association list. -/
def kvLookup (kvs : List (List Char × List Char)) (k : List Char) : Option (List Char) :=
  match kvs with
  | [] => none
  | (k', v) :: rest => if k' = k then some v else kvLookup rest k

/-- The four states of `enum RecvState`. -/
inductive RecvState where
  | RECV_INIT
  | RECV_HEADERS
  | RECV_CONTENT
  | RECV_ERROR
deriving DecidableEq, Repr

/-- The result of one pass of the read-callback loop: `EVHTP_RES_OK`,
`EVHTP_RES_BADREQ` or `EVHTP_RES_SERVERR`. -/
inductive Res where
  | ok
  | badreq
  | serverr
deriving DecidableEq, Repr

/-- `struct RecvFSM`, minus the fields that are pure C bookkeeping
(`repo_id`/`user` play no role in parsing; `fd` is subsumed by
`tmp_file`, which here holds the temp file's contents). -/
structure RecvFSM where
  state : RecvState
  boundary : List Char
  input_name : Option (List Char)
  line : List Char
  form_kvs : List (List Char × List Char)
  recved_crlf : Bool
  file_name : Option (List Char)
  tmp_file : Option (List Char)
deriving DecidableEq, Repr

/-- `g_strcmp0 (o, s) == 0` where `o` may be NULL and `s` is a NUL-free
literal. -/
def optStrEq (o : Option (List Char)) (s : List Char) : Bool :=
  match o with
  | none => false
  | some l => cstr l = s

/-- `writen (fsm->fd, ...)` / `evbuffer_write`: append bytes to the temp
file.  Unreachable with `none` in the runs claims are about (the file is
always opened before `RECV_CONTENT` is entered with `input_name =
"file"`). -/
def appendData (o : Option (List Char)) (d : List Char) : Option (List Char) :=
  match o with
  | none => none
  | some x => some (x ++ d)

/-- The value `g_strdup (fsm->input_name)` used as a hash key in
`recv_form_field`.  A NULL `input_name` there is undefined behaviour in
the C (`g_str_hash` on NULL); it is modelled as the empty key. -/
def optVal (o : Option (List Char)) : List Char := o.getD []

/-- The `while (!no_line)` loop of `upload_read_cb`, fused with
`recv_form_field` and `recv_file_data`.  `fuel` bounds the number of
iterations; every iteration that recurses consumes one complete line,
i.e. at least two buffer bytes, so `fuel = fsm.line.length` makes the
function an exact model of the unbounded C loop (the fuel-0 exit then
coincides with the buffer-empty "no line" exit; `processLoopF_mono`
below confirms any larger fuel gives the same result).
`open_temp_file` is modelled as always succeeding.  The form-field
insert stores `g_strdup (line)`, i.e. the line truncated at its first
NUL byte (`cstr ln`). -/
def processLoopF : Nat → RecvFSM → RecvFSM × Res
  | 0, fsm => (fsm, Res.ok)
  | fuel + 1, fsm =>
    match fsm.state with
    | RecvState.RECV_ERROR => (fsm, Res.ok)
    | RecvState.RECV_INIT =>
      match readln fsm.line with
      | none => (fsm, Res.ok)
      | some (ln, rest) =>
        if strstrB ln fsm.boundary then
          processLoopF fuel { fsm with state := RecvState.RECV_HEADERS, line := rest }
        else ({ fsm with line := rest }, Res.badreq)
    | RecvState.RECV_HEADERS =>
      match readln fsm.line with
      | none => (fsm, Res.ok)
      | some (ln, rest) =>
        if ln = [] then
          if optStrEq fsm.input_name fileL then
            processLoopF fuel
              { fsm with line := rest, state := RecvState.RECV_CONTENT, tmp_file := some [] }
          else
            processLoopF fuel { fsm with line := rest, state := RecvState.RECV_CONTENT }
        else
          match parse_mime_header ln fsm.input_name fsm.file_name with
          | none => ({ fsm with line := rest }, Res.badreq)
          | some (iname, fname) =>
            processLoopF fuel
              { fsm with line := rest, input_name := iname, file_name := fname }
    | RecvState.RECV_CONTENT =>
      if optStrEq fsm.input_name fileL then
        match readln fsm.line with
        | none =>
          if MAX_CONTENT_LINE ≤ fsm.line.length then
            ({ fsm with
                tmp_file := appendData fsm.tmp_file
                  ((if fsm.recved_crlf then [bCR, bLF] else []) ++ fsm.line),
                line := [], recved_crlf := false }, Res.ok)
          else (fsm, Res.ok)
        | some (ln, rest) =>
          if strstrB ln fsm.boundary then
            processLoopF fuel
              { fsm with input_name := none, state := RecvState.RECV_HEADERS, line := rest }
          else
            processLoopF fuel
              { fsm with
                  tmp_file := appendData fsm.tmp_file
                    ((if fsm.recved_crlf then [bCR, bLF] else []) ++ ln),
                  recved_crlf := true, line := rest }
      else
        match readln fsm.line with
        | none => (fsm, Res.ok)
        | some (ln, rest) =>
          if strstrB ln fsm.boundary then
            processLoopF fuel
              { fsm with input_name := none, state := RecvState.RECV_HEADERS, line := rest }
          else
            processLoopF fuel
              { fsm with form_kvs := kvInsert fsm.form_kvs (optVal fsm.input_name) (cstr ln),
                         line := rest }

/-- `struct Progress`. -/
structure Progress where
  uploaded : Int
  size : Int
deriving DecidableEq, Repr

/-- A request's state: the FSM plus its progress entry (a separate
heap object in the C, pointed to by `fsm->progress`). -/
structure ReqState where
  fsm : RecvFSM
  progress : Progress
deriving DecidableEq, Repr

/-- `upload_read_cb`: ignore chunks once in the error state; otherwise
add the chunk length to `progress->uploaded` *before* parsing, move the
chunk into the line buffer, run the loop, and on a non-OK result send
the error reply and move to `RECV_ERROR`. -/
def upload_read_cb (st : ReqState) (buf : List Char) : ReqState :=
  if st.fsm.state = RecvState.RECV_ERROR then st
  else
    let pr : Progress := { st.progress with uploaded := st.progress.uploaded + (buf.length : Int) }
    let fsm0 := { st.fsm with line := st.fsm.line ++ buf }
    let out := processLoopF fsm0.line.length fsm0
    if out.2 = Res.ok then { fsm := out.1, progress := pr }
    else { fsm := { out.1 with state := RecvState.RECV_ERROR }, progress := pr }

/-- Deliver a sequence of body chunks. -/
def runChunks (st : ReqState) (chunks : List (List Char)) : ReqState :=
  chunks.foldl upload_read_cb st

/-- Concatenation of a chunk sequence (the full body it delivers). -/
def chunksJoin : List (List Char) → List Char
  | [] => []
  | c :: cs => c ++ chunksJoin cs

/-- The FSM as `upload_headers_cb` creates it (`g_new0` plus the
boundary from `get_boundary`). -/
def initFSM (bnd : List Char) : RecvFSM :=
  { state := RecvState.RECV_INIT, boundary := bnd, input_name := none, line := [],
    form_kvs := [], recved_crlf := false, file_name := none, tmp_file := none }

/-- A fresh request: zeroed FSM and a progress entry with
`size = content_len`, `uploaded = 0`. -/
def initReq (bnd : List Char) (content_len : Int) : ReqState :=
  { fsm := initFSM bnd, progress := { uploaded := 0, size := content_len } }

/-- `filename_exists`: linear scan of the directory listing. -/
def filename_exists (entries : List (List Char)) (filename : List Char) : Bool :=
  match entries with
  | [] => false
  | e :: rest => if e = filename then true else filename_exists rest filename

/-- `split_filename`: split at the last `.`; the extension is the part
after it (`none` when there is no dot). -/
def split_filename (filename : List Char) : List Char × Option (List Char) :=
  match splitAtChar '.' filename.reverse with
  | none => (filename, none)
  | some (revExt, revName) => (revName.reverse, some revExt.reverse)

/-- `g_strdup_printf ("%s (%d).%s", name, i, ext)` /
`g_strdup_printf ("%s (%d)", name, i)`. -/
def mkCand (name : List Char) (ext : Option (List Char)) (i : Nat) : List Char :=
  name ++ " (".toList ++ (toString i).toList ++ ")".toList ++
    (match ext with
     | some e => '.' :: e
     | none => [])

/-- The i-th candidate name tried by `gen_unique_filename` (candidate 0
is the submitted filename itself). -/
def candidate (filename : List Char) (i : Nat) : List Char :=
  match i with
  | 0 => filename
  | j + 1 => mkCand (split_filename filename).1 (split_filename filename).2 (j + 1)

/-- The `while (filename_exists (dir, unique_name) && i <= 16)` loop.
The loop body runs at most 16 times (`i` runs 1..16), so `fuel = 17`
makes this an exact model. -/
def genLoop (entries : List (List Char)) (name : List Char) (ext : Option (List Char)) :
    Nat → Nat → List Char → List Char
  | 0, _, unique => unique
  | fuel + 1, i, unique =>
    if filename_exists entries unique && i ≤ 16 then
      genLoop entries name ext fuel (i + 1) (mkCand name ext i)
    else unique

/-- `gen_unique_filename`, given the directory listing at `parent_dir`
(the repo / commit / dir lookups are external collaborators). -/
def gen_unique_filename (entries : List (List Char)) (filename : List Char) : List Char :=
  let ne := split_filename filename
  genLoop entries ne.1 ne.2 17 1 filename

/-- The back-end collaborators `upload_cb` consults, abstracted:
quota check result, the directory listing used by
`gen_unique_filename` (`none` = repo/commit/dir lookup failed), and the
`GError` message of `seafile_post_file` (`none` = success). -/
structure Backend where
  quota_ok : Bool
  dir : Option (List (List Char))
  post_error : Option (List Char)
deriving DecidableEq, Repr

/-- The reply `upload_cb` produces: silent early return (NULL fsm or
prior error), `EVHTP_RES_BADREQ`, a redirect to the upload-error page
with a numeric code, or the success redirect. -/
inductive Reply where
  | silent
  | badReq
  | uploadErr (code : Nat)
  | success
deriving DecidableEq, Repr

/-- `upload_cb`: the post-body upload handler.  `stat` on the temp file
is modelled as failing exactly when no temp file was ever created
(`tmp_file = none`; in C the path pointer is NULL and `stat` fails with
`EFAULT`). -/
def upload_cb (env : Backend) (fsmOpt : Option RecvFSM) : Reply :=
  match fsmOpt with
  | none => Reply.silent
  | some fsm =>
    if fsm.state = RecvState.RECV_ERROR then Reply.silent
    else
      match kvLookup fsm.form_kvs parentDirL with
      | none => Reply.badReq
      | some _ =>
        match fsm.tmp_file with
        | none => Reply.uploadErr ERROR_RECV
        | some content =>
          if (content.length : Int) > MAX_UPLOAD_FILE_SIZE then Reply.uploadErr ERROR_SIZE
          else if env.quota_ok = false then Reply.uploadErr ERROR_QUOTA
          else
            match env.dir with
            | none => Reply.uploadErr ERROR_INTERNAL
            | some _ =>
              match env.post_error with
              | some msg =>
                if msg = "Invalid filename".toList then Reply.uploadErr ERROR_FILENAME
                else if msg = "file already exists".toList then Reply.uploadErr ERROR_EXISTS
                else Reply.uploadErr ERROR_INTERNAL
              | none => Reply.success

/-- The part of the FSM `upload_finish_cb` needs: the temp file path (if
one was created) and the progress id. -/
structure FinishInfo where
  tmp_file : Option (List Char)
  progress_id : List Char
deriving DecidableEq, Repr

/-- Remove a key from the progress registry (`g_hash_table_remove`;
hash-table keys are unique, so removing the key is filtering it out). -/
def regRemove (reg : List (List Char × Progress)) (k : List Char) :
    List (List Char × Progress) :=
  reg.filter (fun e => !(e.1 = k : Bool))

/-- `g_unlink`: remove a path from the directory. -/
def diskUnlink (disk : List (List Char)) (path : List Char) : List (List Char) :=
  disk.filter (fun q => !(q = path : Bool))

/-- Registry lookup (`g_hash_table_lookup` for progress entries). -/
def regLookup (reg : List (List Char × Progress)) (k : List Char) : Option Progress :=
  match reg with
  | [] => none
  | (k', v) :: rest => if k' = k then some v else regLookup rest k

/-- `upload_finish_cb`: runs on every request teardown.  With a NULL fsm
it does nothing; otherwise it closes and unlinks the temp file (when one
was created) and removes the progress entry. -/
def upload_finish_cb (reg : List (List Char × Progress)) (disk : List (List Char))
    (fsmOpt : Option FinishInfo) : List (List Char × Progress) × List (List Char) :=
  match fsmOpt with
  | none => (reg, disk)
  | some f =>
    (regRemove reg f.progress_id,
     match f.tmp_file with
     | some p => diskUnlink disk p
     | none => disk)

/-- The reply of the progress endpoint. -/
inductive ProgressReply where
  | badReq
  | okBody (body : List Char)
deriving DecidableEq, Repr

/-- The JSONP body `"%s({\x22uploaded\x22: %lld, \x22length\x22: %lld});"`. -/
def jsonpBody (callback : List Char) (uploaded size : Int) : List Char :=
  callback ++ "(\x7b\"uploaded\": ".toList ++ (toString uploaded).toList ++
    ", \"length\": ".toList ++ (toString size).toList ++ "\x7d);".toList

/-- `upload_progress_cb`: requires the `X-Progress-ID` and `callback`
query parameters and an existing registry entry; otherwise BadRequest. -/
def upload_progress_cb (reg : List (List Char × Progress))
    (xProgressId callback : Option (List Char)) : ProgressReply :=
  match xProgressId with
  | none => ProgressReply.badReq
  | some pid =>
    match callback with
    | none => ProgressReply.badReq
    | some cb =>
      match regLookup reg pid with
      | none => ProgressReply.badReq
      | some prog => ProgressReply.okBody (jsonpBody cb prog.uploaded prog.size)

/-! ### Proof-support definitions -/

/-- A buffer holding `segs` as CRLF-terminated lines followed by `tail`. -/
def segsBuf (segs : List (List Char)) (tail : List Char) : List Char :=
  match segs with
  | [] => tail
  | s :: t => s ++ bCR :: bLF :: segsBuf t tail

/-- The bytes `recv_file_data` writes for the lines `segs` when the
deferred-CRLF flag starts as `r`: each line is prefixed by CRLF when the
flag is set, and the flag is set after every line. -/
def written (r : Bool) : List (List Char) → List Char
  | [] => []
  | s :: t => (if r then [bCR, bLF] else []) ++ s ++ written true t

/-- A state in which the read-callback loop makes no further progress:
either the terminal error state, or no complete line is buffered and
(when receiving file data) the buffer is below the flush threshold. -/
def Quiescent (fsm : RecvFSM) : Prop :=
  fsm.state = RecvState.RECV_ERROR ∨
    (readln fsm.line = none ∧
      (fsm.state = RecvState.RECV_CONTENT → optStrEq fsm.input_name fileL = true →
        fsm.line.length < MAX_CONTENT_LINE))

/-- The boundary used by the round-trip theorem. -/
def bnd1 : List Char := "ZzBoundary42".toList

/-- First boundary line of the canonical upload body. -/
def bLine1 : List Char := "--ZzBoundary42".toList

/-- `Content-Disposition` header of the `parent_dir` field. -/
def bCD1 : List Char := "Content-Disposition: form-data; name=\"parent_dir\"".toList

/-- `Content-Disposition` header of the `file` field. -/
def bCD2 : List Char :=
  "Content-Disposition: form-data; name=\"file\"; filename=\"a.txt\"".toList

/-- Closing boundary line of the canonical upload body. -/
def bClose : List Char := "--ZzBoundary42--".toList

/-- Tail of the canonical upload body from the file payload on. -/
def upR7 (B : List Char) : List Char := B ++ bCR :: bLF :: (bClose ++ [bCR, bLF])

/-- Tail from the blank line ending the file part's headers. -/
def upR6 (B : List Char) : List Char := bCR :: bLF :: upR7 B

/-- Tail from the file part's `Content-Disposition` header. -/
def upR5 (B : List Char) : List Char := bCD2 ++ bCR :: bLF :: upR6 B

/-- Tail from the boundary line separating the two parts. -/
def upR4 (B : List Char) : List Char := bLine1 ++ bCR :: bLF :: upR5 B

/-- Tail from the `parent_dir` field value. -/
def upR3 (P B : List Char) : List Char := P ++ bCR :: bLF :: upR4 B

/-- Tail from the blank line ending the first part's headers. -/
def upR2 (P B : List Char) : List Char := bCR :: bLF :: upR3 P B

/-- Tail from the first part's `Content-Disposition` header. -/
def upR1 (P B : List Char) : List Char := bCD1 ++ bCR :: bLF :: upR2 P B

/-- A canonical well-formed multipart body: a `parent_dir` field with
value `P` followed by a `file` part with payload `B`. -/
def uploadBody (P B : List Char) : List Char := bLine1 ++ bCR :: bLF :: upR1 P B

/-- Boundary of the chunking counterexample. -/
def cexBnd : List Char := "B".toList

/-- First boundary line of the counterexample body. -/
def cexL1 : List Char := "--B".toList

/-- `Content-Disposition` header of the counterexample's file part. -/
def cexCD : List Char :=
  "Content-Disposition: form-data; name=\"file\"; filename=\"a\"".toList

/-- Closing boundary line of the counterexample body. -/
def cexClose : List Char := "--B--".toList

/-- A `MAX_CONTENT_LINE`-sized CRLF-free run whose last byte is the
boundary string. -/
def cexRun : List Char := List.replicate 10239 'a' ++ ['B']

/-- First chunk of the counterexample delivery: the first boundary line,
the file part's headers, the blank line, and then the long run with no
CRLF yet. -/
def cexChunk1 : List Char :=
  cexL1 ++ bCR :: bLF :: (cexCD ++ bCR :: bLF :: bCR :: bLF :: cexRun)

/-- Second chunk: the run's CRLF terminator and the closing boundary. -/
def cexChunk2 : List Char := bCR :: bLF :: (cexClose ++ [bCR, bLF])

/-- The counterexample body (the two chunks concatenated). -/
def cexBody : List Char := cexChunk1 ++ cexChunk2

/-! ### Basic facts about `readln` -/

theorem readln_none_of_hasCRLF {l : List Char} (h : hasCRLF l = false) :
    readln l = none := by
  induction l with
  | nil => rfl
  | cons c t ih =>
    cases t with
    | nil => rfl
    | cons d u =>
      simp only [hasCRLF, Bool.or_eq_false_iff, decide_eq_false_iff_not] at h
      simp only [readln, if_neg h.1, ih h.2]

theorem readln_seg (s r : List Char) (h : hasCRLF s = false) :
    readln (s ++ bCR :: bLF :: r) = some (s, r) := by
  induction s with
  | nil =>
    show readln (bCR :: bLF :: r) = some ([], r)
    simp [readln]
  | cons c t ih =>
    cases t with
    | nil =>
      show readln (c :: bCR :: bLF :: r) = some ([c], r)
      have hne : ¬(c = bCR ∧ bCR = bLF) := by
        rintro ⟨-, h2⟩; exact absurd h2 (by decide)
      simp [readln, hne]
    | cons d u =>
      simp only [hasCRLF, Bool.or_eq_false_iff, decide_eq_false_iff_not] at h
      have : readln ((d :: u) ++ bCR :: bLF :: r) = some (d :: u, r) := ih h.2
      show readln (c :: (d :: u) ++ bCR :: bLF :: r) = some (c :: d :: u, r)
      simp only [List.cons_append] at this ⊢
      simp only [readln, if_neg h.1, this]

theorem readln_shape {l ln r : List Char} (h : readln l = some (ln, r)) :
    l = ln ++ bCR :: bLF :: r ∧ hasCRLF ln = false := by
  induction l generalizing ln r with
  | nil => simp [readln] at h
  | cons c t ih =>
    cases t with
    | nil => simp [readln] at h
    | cons d u =>
      by_cases hc : c = bCR ∧ d = bLF
      · simp only [readln, if_pos hc] at h
        obtain ⟨h1, h2⟩ := Prod.mk.injEq .. ▸ Option.some.injEq .. ▸ h
        subst h1; subst h2
        refine ⟨?_, rfl⟩
        simp [hc.1, hc.2]
      · simp only [readln, if_neg hc] at h
        cases hr : readln (d :: u) with
        | none => rw [hr] at h; exact absurd h (by simp)
        | some p =>
          obtain ⟨ln', r'⟩ := p
          rw [hr] at h
          simp only [Option.some.injEq, Prod.mk.injEq] at h
          obtain ⟨h1, h2⟩ := h
          obtain ⟨hs, hcrlf⟩ := ih hr
          subst h1; subst h2
          constructor
          · rw [hs]; rfl
          · cases ln' with
            | nil => rfl
            | cons e es =>
              have hde : d = e := by
                have := hs
                simp only [List.cons_append] at this
                exact (List.cons.injEq .. ▸ this).1
              simp only [hasCRLF, Bool.or_eq_false_iff, decide_eq_false_iff_not]
              exact ⟨fun hce => hc ⟨hce.1, hde ▸ hce.2⟩, hcrlf⟩

theorem readln_append {l ln r : List Char} (b : List Char)
    (h : readln l = some (ln, r)) : readln (l ++ b) = some (ln, r ++ b) := by
  obtain ⟨hs, hc⟩ := readln_shape h
  rw [hs, List.append_assoc]
  exact readln_seg ln (r ++ b) hc

theorem readln_length {l ln r : List Char} (h : readln l = some (ln, r)) :
    l.length = ln.length + r.length + 2 := by
  obtain ⟨hs, -⟩ := readln_shape h
  subst hs
  simp [List.length_append]
  omega

/-! ### Facts about `splitCRLF`, `joinCRLF`, `segsBuf` and `written` -/

theorem splitCRLF_ne_nil (l : List Char) : splitCRLF l ≠ [] := by
  induction l using splitCRLF.induct with
  | case1 => simp [splitCRLF]
  | case2 => simp [splitCRLF]
  | case3 c d rest h ih => simp [splitCRLF, h]
  | case4 c d rest h hs ih => simp [splitCRLF, h, hs]
  | case5 c d rest h s ss hs ih => simp [splitCRLF, h, hs]

theorem splitCRLF_head {x : Char} {xs s : List Char} {ss : List (List Char)}
    (h : splitCRLF (x :: xs) = s :: ss) : s = [] ∨ ∃ t, s = x :: t := by
  cases xs with
  | nil =>
    simp only [splitCRLF, List.cons.injEq] at h
    exact Or.inr ⟨[], h.1.symm⟩
  | cons y ys =>
    by_cases hc : x = bCR ∧ y = bLF
    · simp only [splitCRLF, if_pos hc, List.cons.injEq] at h
      exact Or.inl h.1.symm
    · simp only [splitCRLF, if_neg hc] at h
      cases hsp : splitCRLF (y :: ys) with
      | nil => exact absurd hsp (splitCRLF_ne_nil _)
      | cons a as =>
        rw [hsp] at h
        simp only [List.cons.injEq] at h
        exact Or.inr ⟨a, h.1.symm⟩

theorem hasCRLF_of_mem_splitCRLF {l s : List Char} (h : s ∈ splitCRLF l) :
    hasCRLF s = false := by
  induction l using splitCRLF.induct generalizing s with
  | case1 =>
    simp only [splitCRLF, List.mem_singleton] at h
    subst h; rfl
  | case2 c =>
    simp only [splitCRLF, List.mem_singleton] at h
    subst h; rfl
  | case3 c d rest hcd ih =>
    simp only [splitCRLF, if_pos hcd, List.mem_cons] at h
    rcases h with h | h
    · subst h; rfl
    · exact ih h
  | case4 c d rest hcd hs ih => exact absurd hs (splitCRLF_ne_nil _)
  | case5 c d rest hcd s' ss hs ih =>
    simp only [splitCRLF, if_neg hcd, hs, List.mem_cons] at h
    rcases h with h | h
    · subst h
      have hcs : hasCRLF s' = false := ih (by rw [hs]; exact List.mem_cons_self _ _)
      rcases splitCRLF_head hs with h0 | ⟨t, ht⟩
      · subst h0; rfl
      · subst ht
        simp only [hasCRLF, Bool.or_eq_false_iff, decide_eq_false_iff_not]
        exact ⟨fun hce => hcd ⟨hce.1, hce.2⟩, hcs⟩
    · exact ih (by rw [hs]; exact List.mem_cons_of_mem _ h)

theorem joinCRLF_splitCRLF (l : List Char) : joinCRLF (splitCRLF l) = l := by
  induction l using splitCRLF.induct with
  | case1 => rfl
  | case2 c => rfl
  | case3 c d rest hcd ih =>
    simp only [splitCRLF, if_pos hcd]
    cases hsp : splitCRLF rest with
    | nil => exact absurd hsp (splitCRLF_ne_nil _)
    | cons a as =>
      rw [hsp] at ih
      show joinCRLF ([] :: a :: as) = c :: d :: rest
      simp only [joinCRLF, List.nil_append]
      rw [ih, hcd.1, hcd.2]
  | case4 c d rest hcd hs ih => exact absurd hs (splitCRLF_ne_nil _)
  | case5 c d rest hcd s ss hs ih =>
    simp only [splitCRLF, if_neg hcd, hs]
    rw [hs] at ih
    cases ss with
    | nil =>
      show joinCRLF [c :: s] = c :: d :: rest
      simp only [joinCRLF] at ih ⊢
      rw [ih]
    | cons b bs =>
      show joinCRLF ((c :: s) :: b :: bs) = c :: d :: rest
      simp only [joinCRLF, List.cons_append] at ih ⊢
      rw [← ih]

theorem segsBuf_splitCRLF (l tail : List Char) :
    segsBuf (splitCRLF l) tail = l ++ bCR :: bLF :: tail := by
  induction l using splitCRLF.induct with
  | case1 => rfl
  | case2 c => rfl
  | case3 c d rest hcd ih =>
    simp only [splitCRLF, if_pos hcd]
    show segsBuf ([] :: splitCRLF rest) tail = (c :: d :: rest) ++ bCR :: bLF :: tail
    simp only [segsBuf, List.nil_append]
    rw [ih, hcd.1, hcd.2]
    rfl
  | case4 c d rest hcd hs ih => exact absurd hs (splitCRLF_ne_nil _)
  | case5 c d rest hcd s ss hs ih =>
    simp only [splitCRLF, if_neg hcd, hs]
    rw [hs] at ih
    show segsBuf ((c :: s) :: ss) tail = (c :: d :: rest) ++ bCR :: bLF :: tail
    simp only [segsBuf, List.cons_append] at ih ⊢
    rw [ih]

theorem written_eq (segs : List (List Char)) :
    written false segs = joinCRLF segs ∧
      written true segs = (if segs = [] then [] else bCR :: bLF :: joinCRLF segs) := by
  induction segs with
  | nil => exact ⟨rfl, rfl⟩
  | cons s t ih =>
    obtain ⟨-, ih2⟩ := ih
    constructor
    · show [] ++ s ++ written true t = joinCRLF (s :: t)
      rw [ih2]
      cases t with
      | nil => simp [joinCRLF]
      | cons u us => simp [joinCRLF]
    · show [bCR, bLF] ++ s ++ written true t =
        if s :: t = [] then [] else bCR :: bLF :: joinCRLF (s :: t)
      rw [ih2]
      cases t with
      | nil => simp [joinCRLF]
      | cons u us => simp [joinCRLF]

/-! ### The loop: fuel adequacy and basic invariants -/

theorem processLoopF_mono (n : Nat) :
    ∀ (fsm : RecvFSM) (m : Nat), fsm.line.length ≤ n → n ≤ m →
      processLoopF n fsm = processLoopF m fsm := by
  induction n with
  | zero =>
    intro fsm m h0 _
    have hl : fsm.line = [] := List.eq_nil_of_length_eq_zero (Nat.le_zero.mp h0)
    cases m with
    | zero => rfl
    | succ m =>
      show (fsm, Res.ok) = processLoopF (m + 1) fsm
      cases hst : fsm.state <;>
        simp [processLoopF, hst, hl, readln, MAX_CONTENT_LINE]
  | succ n ih =>
    intro fsm m hle hnm
    cases m with
    | zero => omega
    | succ m =>
      have hnm' : n ≤ m := Nat.succ_le_succ_iff.mp hnm
      show processLoopF (n + 1) fsm = processLoopF (m + 1) fsm
      simp only [processLoopF]
      cases hst : fsm.state
      case RECV_ERROR => rfl
      case RECV_INIT =>
        cases hr : readln fsm.line with
        | none => rfl
        | some p =>
          obtain ⟨ln, rest⟩ := p
          have hlen := readln_length hr
          simp only
          by_cases hb : strstrB ln fsm.boundary = true
          · simp only [hb, if_true]
            exact ih _ _ (by simp; omega) hnm'
          · simp only [hb, if_false, Bool.false_eq_true]
      case RECV_HEADERS =>
        cases hr : readln fsm.line with
        | none => rfl
        | some p =>
          obtain ⟨ln, rest⟩ := p
          have hlen := readln_length hr
          simp only
          by_cases hln : ln = []
          · simp only [if_pos hln]
            by_cases hf : optStrEq fsm.input_name fileL = true
            · simp only [hf, if_true]
              exact ih _ _ (by simp; omega) hnm'
            · simp only [hf, if_false]
              exact ih _ _ (by simp; omega) hnm'
          · simp only [if_neg hln]
            cases hp : parse_mime_header ln fsm.input_name fsm.file_name with
            | none => rfl
            | some q =>
              obtain ⟨iname, fname⟩ := q
              exact ih _ _ (by simp; omega) hnm'
      case RECV_CONTENT =>
        by_cases hf : optStrEq fsm.input_name fileL = true
        · simp only [hf, if_true]
          cases hr : readln fsm.line with
          | none => rfl
          | some p =>
            obtain ⟨ln, rest⟩ := p
            have hlen := readln_length hr
            simp only
            by_cases hb : strstrB ln fsm.boundary = true
            · simp only [hb, if_true]
              exact ih _ _ (by simp; omega) hnm'
            · simp only [hb, if_false, Bool.false_eq_true]
              exact ih _ _ (by simp; omega) hnm'
        · simp only [hf, if_false]
          cases hr : readln fsm.line with
          | none => rfl
          | some p =>
            obtain ⟨ln, rest⟩ := p
            have hlen := readln_length hr
            simp only
            by_cases hb : strstrB ln fsm.boundary = true
            · simp only [hb, if_true]
              exact ih _ _ (by simp; omega) hnm'
            · simp only [hb, if_false, Bool.false_eq_true]
              exact ih _ _ (by simp; omega) hnm'

/-! ### Quiescence, loop invariants, and chunk-boundary independence -/

theorem quiescent_run {fsm : RecvFSM} (h : Quiescent fsm) (g : Nat) :
    processLoopF g fsm = (fsm, Res.ok) := by
  cases g with
  | zero => rfl
  | succ g =>
    rcases h with herr | ⟨hr, hc⟩
    · simp [processLoopF, herr]
    · cases hst : fsm.state
      case RECV_INIT => simp [processLoopF, hst, hr]
      case RECV_HEADERS => simp [processLoopF, hst, hr]
      case RECV_ERROR => simp [processLoopF, hst]
      case RECV_CONTENT =>
        by_cases hf : optStrEq fsm.input_name fileL = true
        · have hlt := hc hst hf
          have hguard : ¬ MAX_CONTENT_LINE ≤ fsm.line.length := by omega
          simp [processLoopF, hst, hf, hr, hguard]
        · simp [processLoopF, hst, hf, hr]

theorem quiescent_nil_line {fsm : RecvFSM} (h : fsm.line = []) : Quiescent fsm := by
  right
  refine ⟨by rw [h]; rfl, fun _ _ => ?_⟩
  rw [h]
  simp [MAX_CONTENT_LINE]

theorem quiescent_after :
    ∀ (f : Nat) (fsm : RecvFSM), fsm.line.length ≤ f →
      (processLoopF f fsm).2 = Res.ok → Quiescent (processLoopF f fsm).1 := by
  intro f
  induction f with
  | zero =>
    intro fsm h0 _
    exact quiescent_nil_line (List.eq_nil_of_length_eq_zero (Nat.le_zero.mp h0))
  | succ f ih =>
    intro fsm hle hok
    cases hst : fsm.state
    case RECV_ERROR =>
      have hstep : processLoopF (f + 1) fsm = (fsm, Res.ok) := by
        simp [processLoopF, hst]
      rw [hstep]
      exact Or.inl hst
    case RECV_INIT =>
      cases hr : readln fsm.line with
      | none =>
        have hstep : processLoopF (f + 1) fsm = (fsm, Res.ok) := by
          simp [processLoopF, hst, hr]
        rw [hstep]
        exact Or.inr ⟨hr, fun hc => by rw [hst] at hc; cases hc⟩
      | some p =>
        obtain ⟨ln, rest⟩ := p
        have hlen := readln_length hr
        by_cases hb : strstrB ln fsm.boundary = true
        · have hstep : processLoopF (f + 1) fsm =
              processLoopF f { fsm with state := RecvState.RECV_HEADERS, line := rest } := by
            simp [processLoopF, hst, hr, hb]
          rw [hstep] at hok ⊢
          exact ih _ (by simp; omega) hok
        · have hstep : processLoopF (f + 1) fsm =
              ({ fsm with line := rest }, Res.badreq) := by
            simp [processLoopF, hst, hr, hb]
          rw [hstep] at hok
          exact absurd hok (by simp)
    case RECV_HEADERS =>
      cases hr : readln fsm.line with
      | none =>
        have hstep : processLoopF (f + 1) fsm = (fsm, Res.ok) := by
          simp [processLoopF, hst, hr]
        rw [hstep]
        exact Or.inr ⟨hr, fun hc => by rw [hst] at hc; cases hc⟩
      | some p =>
        obtain ⟨ln, rest⟩ := p
        have hlen := readln_length hr
        by_cases hln : ln = []
        · by_cases hf : optStrEq fsm.input_name fileL = true
          · have hstep : processLoopF (f + 1) fsm =
                processLoopF f
                  { fsm with line := rest, state := RecvState.RECV_CONTENT,
                             tmp_file := some [] } := by
              simp [processLoopF, hst, hr, hln, hf]
            rw [hstep] at hok ⊢
            exact ih _ (by simp; omega) hok
          · have hstep : processLoopF (f + 1) fsm =
                processLoopF f { fsm with line := rest, state := RecvState.RECV_CONTENT } := by
              simp [processLoopF, hst, hr, hln, hf]
            rw [hstep] at hok ⊢
            exact ih _ (by simp; omega) hok
        · cases hp : parse_mime_header ln fsm.input_name fsm.file_name with
          | none =>
            have hstep : processLoopF (f + 1) fsm =
                ({ fsm with line := rest }, Res.badreq) := by
              simp [processLoopF, hst, hr, hln, hp]
            rw [hstep] at hok
            exact absurd hok (by simp)
          | some q =>
            obtain ⟨iname, fname⟩ := q
            have hstep : processLoopF (f + 1) fsm =
                processLoopF f
                  { fsm with line := rest, input_name := iname, file_name := fname } := by
              simp [processLoopF, hst, hr, hln, hp]
            rw [hstep] at hok ⊢
            exact ih _ (by simp; omega) hok
    case RECV_CONTENT =>
      by_cases hf : optStrEq fsm.input_name fileL = true
      · cases hr : readln fsm.line with
        | none =>
          by_cases hg : MAX_CONTENT_LINE ≤ fsm.line.length
          · have hstep : processLoopF (f + 1) fsm =
                ({ fsm with
                    tmp_file := appendData fsm.tmp_file
                      ((if fsm.recved_crlf then [bCR, bLF] else []) ++ fsm.line),
                    line := [], recved_crlf := false }, Res.ok) := by
              simp [processLoopF, hst, hf, hr, hg]
            rw [hstep]
            exact quiescent_nil_line rfl
          · have hstep : processLoopF (f + 1) fsm = (fsm, Res.ok) := by
              simp [processLoopF, hst, hf, hr, hg]
            rw [hstep]
            show Quiescent fsm
            exact Or.inr ⟨hr, fun _ _ => by omega⟩
        | some p =>
          obtain ⟨ln, rest⟩ := p
          have hlen := readln_length hr
          by_cases hb : strstrB ln fsm.boundary = true
          · have hstep : processLoopF (f + 1) fsm =
                processLoopF f
                  { fsm with input_name := none, state := RecvState.RECV_HEADERS,
                             line := rest } := by
              simp [processLoopF, hst, hf, hr, hb]
            rw [hstep] at hok ⊢
            exact ih _ (by simp; omega) hok
          · have hstep : processLoopF (f + 1) fsm =
                processLoopF f
                  { fsm with tmp_file := appendData fsm.tmp_file
                               ((if fsm.recved_crlf then [bCR, bLF] else []) ++ ln),
                             recved_crlf := true, line := rest } := by
              simp [processLoopF, hst, hf, hr, hb]
            rw [hstep] at hok ⊢
            exact ih _ (by simp; omega) hok
      · cases hr : readln fsm.line with
        | none =>
          have hstep : processLoopF (f + 1) fsm = (fsm, Res.ok) := by
            simp [processLoopF, hst, hf, hr]
          rw [hstep]
          refine Or.inr ⟨hr, fun _ hf' => ?_⟩
          exact absurd hf' hf
        | some p =>
          obtain ⟨ln, rest⟩ := p
          have hlen := readln_length hr
          by_cases hb : strstrB ln fsm.boundary = true
          · have hstep : processLoopF (f + 1) fsm =
                processLoopF f
                  { fsm with input_name := none, state := RecvState.RECV_HEADERS,
                             line := rest } := by
              simp [processLoopF, hst, hf, hr, hb]
            rw [hstep] at hok ⊢
            exact ih _ (by simp; omega) hok
          · have hstep : processLoopF (f + 1) fsm =
                processLoopF f
                  { fsm with form_kvs := kvInsert fsm.form_kvs (optVal fsm.input_name) (cstr ln),
                             line := rest } := by
              simp [processLoopF, hst, hf, hr, hb]
            rw [hstep] at hok ⊢
            exact ih _ (by simp; omega) hok



theorem processLoopF_basic :
    ∀ (f : Nat) (fsm : RecvFSM),
      (processLoopF f fsm).1.line.length ≤ fsm.line.length ∧
        ((processLoopF f fsm).1.state = RecvState.RECV_ERROR →
          fsm.state = RecvState.RECV_ERROR) := by
  intro f
  induction f with
  | zero => intro fsm; exact ⟨Nat.le_refl _, fun h => h⟩
  | succ f ih =>
    intro fsm
    cases hst : fsm.state
    case RECV_ERROR =>
      have hstep : processLoopF (f + 1) fsm = (fsm, Res.ok) := by
        simp [processLoopF, hst]
      rw [hstep]
      exact ⟨Nat.le_refl _, fun _ => rfl⟩
    case RECV_INIT =>
      cases hr : readln fsm.line with
      | none =>
        have hstep : processLoopF (f + 1) fsm = (fsm, Res.ok) := by
          simp [processLoopF, hst, hr]
        rw [hstep]
        exact ⟨Nat.le_refl _, fun h => by simp [hst] at h⟩
      | some p =>
        obtain ⟨ln, rest⟩ := p
        have hlen := readln_length hr
        by_cases hb : strstrB ln fsm.boundary = true
        · have hstep : processLoopF (f + 1) fsm =
              processLoopF f { fsm with state := RecvState.RECV_HEADERS, line := rest } := by
            simp [processLoopF, hst, hr, hb]
          rw [hstep]
          obtain ⟨ih1, ih2⟩ := ih { fsm with state := RecvState.RECV_HEADERS, line := rest }
          refine ⟨by simp at ih1; omega, fun h => absurd (ih2 h) (by simp [hst])⟩
        · have hstep : processLoopF (f + 1) fsm =
              ({ fsm with line := rest }, Res.badreq) := by
            simp [processLoopF, hst, hr, hb]
          rw [hstep]
          refine ⟨by simp; omega, fun h => by simp [hst] at h⟩
    case RECV_HEADERS =>
      cases hr : readln fsm.line with
      | none =>
        have hstep : processLoopF (f + 1) fsm = (fsm, Res.ok) := by
          simp [processLoopF, hst, hr]
        rw [hstep]
        exact ⟨Nat.le_refl _, fun h => by simp [hst] at h⟩
      | some p =>
        obtain ⟨ln, rest⟩ := p
        have hlen := readln_length hr
        by_cases hln : ln = []
        · by_cases hf : optStrEq fsm.input_name fileL = true
          · have hstep : processLoopF (f + 1) fsm =
                processLoopF f
                  { fsm with line := rest, state := RecvState.RECV_CONTENT,
                             tmp_file := some [] } := by
              simp [processLoopF, hst, hr, hln, hf]
            rw [hstep]
            obtain ⟨ih1, ih2⟩ := ih _
            refine ⟨by simp at ih1; omega, fun h => absurd (ih2 h) (by simp [hst])⟩
          · have hstep : processLoopF (f + 1) fsm =
                processLoopF f
                  { fsm with line := rest, state := RecvState.RECV_CONTENT } := by
              simp [processLoopF, hst, hr, hln, hf]
            rw [hstep]
            obtain ⟨ih1, ih2⟩ := ih _
            refine ⟨by simp at ih1; omega, fun h => absurd (ih2 h) (by simp [hst])⟩
        · cases hp : parse_mime_header ln fsm.input_name fsm.file_name with
          | none =>
            have hstep : processLoopF (f + 1) fsm =
                ({ fsm with line := rest }, Res.badreq) := by
              simp [processLoopF, hst, hr, hln, hp]
            rw [hstep]
            refine ⟨by simp; omega, fun h => by simp [hst] at h⟩
          | some q =>
            obtain ⟨iname, fname⟩ := q
            have hstep : processLoopF (f + 1) fsm =
                processLoopF f
                  { fsm with line := rest, input_name := iname, file_name := fname } := by
              simp [processLoopF, hst, hr, hln, hp]
            rw [hstep]
            obtain ⟨ih1, ih2⟩ := ih _
            refine ⟨by simp at ih1; omega, fun h => absurd (ih2 h) (by simp [hst])⟩
    case RECV_CONTENT =>
      by_cases hf : optStrEq fsm.input_name fileL = true
      · cases hr : readln fsm.line with
        | none =>
          by_cases hg : MAX_CONTENT_LINE ≤ fsm.line.length
          · have hstep : processLoopF (f + 1) fsm =
                ({ fsm with
                    tmp_file := appendData fsm.tmp_file
                      ((if fsm.recved_crlf then [bCR, bLF] else []) ++ fsm.line),
                    line := [], recved_crlf := false }, Res.ok) := by
              simp [processLoopF, hst, hf, hr, hg]
            rw [hstep]
            refine ⟨by simp, fun h => by simp [hst] at h⟩
          · have hstep : processLoopF (f + 1) fsm = (fsm, Res.ok) := by
              simp [processLoopF, hst, hf, hr, hg]
            rw [hstep]
            exact ⟨Nat.le_refl _, fun h => by simp [hst] at h⟩
        | some p =>
          obtain ⟨ln, rest⟩ := p
          have hlen := readln_length hr
          by_cases hb : strstrB ln fsm.boundary = true
          · have hstep : processLoopF (f + 1) fsm =
                processLoopF f
                  { fsm with input_name := none, state := RecvState.RECV_HEADERS,
                             line := rest } := by
              simp [processLoopF, hst, hf, hr, hb]
            rw [hstep]
            obtain ⟨ih1, ih2⟩ := ih _
            refine ⟨by simp at ih1; omega, fun h => absurd (ih2 h) (by simp [hst])⟩
          · have hstep : processLoopF (f + 1) fsm =
                processLoopF f
                  { fsm with tmp_file := appendData fsm.tmp_file
                               ((if fsm.recved_crlf then [bCR, bLF] else []) ++ ln),
                             recved_crlf := true, line := rest } := by
              simp [processLoopF, hst, hf, hr, hb]
            rw [hstep]
            obtain ⟨ih1, ih2⟩ := ih _
            refine ⟨by simp at ih1; omega, fun h => absurd (ih2 h) (by simp [hst])⟩
      · cases hr : readln fsm.line with
        | none =>
          have hstep : processLoopF (f + 1) fsm = (fsm, Res.ok) := by
            simp [processLoopF, hst, hf, hr]
          rw [hstep]
          exact ⟨Nat.le_refl _, fun h => by simp [hst] at h⟩
        | some p =>
          obtain ⟨ln, rest⟩ := p
          have hlen := readln_length hr
          by_cases hb : strstrB ln fsm.boundary = true
          · have hstep : processLoopF (f + 1) fsm =
                processLoopF f
                  { fsm with input_name := none, state := RecvState.RECV_HEADERS,
                             line := rest } := by
              simp [processLoopF, hst, hf, hr, hb]
            rw [hstep]
            obtain ⟨ih1, ih2⟩ := ih _
            refine ⟨by simp at ih1; omega, fun h => absurd (ih2 h) (by simp [hst])⟩
          · have hstep : processLoopF (f + 1) fsm =
                processLoopF f
                  { fsm with form_kvs := kvInsert fsm.form_kvs (optVal fsm.input_name) (cstr ln),
                             line := rest } := by
              simp [processLoopF, hst, hf, hr, hb]
            rw [hstep]
            obtain ⟨ih1, ih2⟩ := ih _
            refine ⟨by simp at ih1; omega, fun h => absurd (ih2 h) (by simp [hst])⟩



theorem processLoopF_append (b : List Char) :
    ∀ (f : Nat) (fsm : RecvFSM), fsm.line.length ≤ f →
      fsm.line.length + b.length < MAX_CONTENT_LINE →
      processLoopF (fsm.line.length + b.length) { fsm with line := fsm.line ++ b } =
        (if (processLoopF f fsm).2 = Res.ok then
          processLoopF ((processLoopF f fsm).1.line.length + b.length)
            { (processLoopF f fsm).1 with line := (processLoopF f fsm).1.line ++ b }
        else
          ({ (processLoopF f fsm).1 with line := (processLoopF f fsm).1.line ++ b },
            (processLoopF f fsm).2)) := by
  intro f
  induction f with
  | zero =>
    intro fsm h0 _
    rw [show processLoopF 0 fsm = (fsm, Res.ok) from rfl]
    rfl
  | succ f ih =>
    intro fsm hle hmax
    obtain ⟨st, bnd, inm, line, kvs, rc, fn, tf⟩ := fsm
    dsimp only at hle hmax ⊢
    cases st
    case RECV_ERROR =>
      have horun : processLoopF (f + 1) (⟨RecvState.RECV_ERROR, bnd, inm, line, kvs, rc, fn, tf⟩ : RecvFSM) =
          (⟨RecvState.RECV_ERROR, bnd, inm, line, kvs, rc, fn, tf⟩, Res.ok) := by
        simp [processLoopF]
      rw [horun]
      rfl
    case RECV_INIT =>
      cases hr : readln line with
      | none =>
        have horun : processLoopF (f + 1) (⟨RecvState.RECV_INIT, bnd, inm, line, kvs, rc, fn, tf⟩ : RecvFSM) =
            (⟨RecvState.RECV_INIT, bnd, inm, line, kvs, rc, fn, tf⟩, Res.ok) := by
          simp [processLoopF, hr]
        rw [horun]
        rfl
      | some p =>
        obtain ⟨ln, rest⟩ := p
        have hlen := readln_length hr
        have hr2 : readln (line ++ b) = some (ln, rest ++ b) := readln_append b hr
        have hfu : line.length + b.length =
            (ln.length + rest.length + 1 + b.length) + 1 := by omega
        rw [hfu]
        by_cases hb : strstrB ln bnd = true
        · have hlhs : processLoopF ((ln.length + rest.length + 1 + b.length) + 1)
              (⟨RecvState.RECV_INIT, bnd, inm, line ++ b, kvs, rc, fn, tf⟩ : RecvFSM) =
              processLoopF (ln.length + rest.length + 1 + b.length)
                ⟨RecvState.RECV_HEADERS, bnd, inm, rest ++ b, kvs, rc, fn, tf⟩ := by
            simp [processLoopF, hr2, hb]
          have horun : processLoopF (f + 1) (⟨RecvState.RECV_INIT, bnd, inm, line, kvs, rc, fn, tf⟩ : RecvFSM) =
              processLoopF f ⟨RecvState.RECV_HEADERS, bnd, inm, rest, kvs, rc, fn, tf⟩ := by
            simp [processLoopF, hr, hb]
          rw [hlhs, horun,
            ← processLoopF_mono (rest.length + b.length)
              ⟨RecvState.RECV_HEADERS, bnd, inm, rest ++ b, kvs, rc, fn, tf⟩
              (ln.length + rest.length + 1 + b.length) (by dsimp; simp) (by omega)]
          exact ih ⟨RecvState.RECV_HEADERS, bnd, inm, rest, kvs, rc, fn, tf⟩
            (by dsimp; omega) (by dsimp; omega)
        · have hlhs : processLoopF ((ln.length + rest.length + 1 + b.length) + 1)
              (⟨RecvState.RECV_INIT, bnd, inm, line ++ b, kvs, rc, fn, tf⟩ : RecvFSM) =
              (⟨RecvState.RECV_INIT, bnd, inm, rest ++ b, kvs, rc, fn, tf⟩, Res.badreq) := by
            simp [processLoopF, hr2, hb]
          have horun : processLoopF (f + 1) (⟨RecvState.RECV_INIT, bnd, inm, line, kvs, rc, fn, tf⟩ : RecvFSM) =
              (⟨RecvState.RECV_INIT, bnd, inm, rest, kvs, rc, fn, tf⟩, Res.badreq) := by
            simp [processLoopF, hr, hb]
          rw [hlhs, horun]
          rfl
    case RECV_HEADERS =>
      cases hr : readln line with
      | none =>
        have horun : processLoopF (f + 1) (⟨RecvState.RECV_HEADERS, bnd, inm, line, kvs, rc, fn, tf⟩ : RecvFSM) =
            (⟨RecvState.RECV_HEADERS, bnd, inm, line, kvs, rc, fn, tf⟩, Res.ok) := by
          simp [processLoopF, hr]
        rw [horun]
        rfl
      | some p =>
        obtain ⟨ln, rest⟩ := p
        have hlen := readln_length hr
        have hr2 : readln (line ++ b) = some (ln, rest ++ b) := readln_append b hr
        have hfu : line.length + b.length =
            (ln.length + rest.length + 1 + b.length) + 1 := by omega
        rw [hfu]
        by_cases hln : ln = []
        · by_cases hfi : optStrEq inm fileL = true
          · have hlhs : processLoopF ((ln.length + rest.length + 1 + b.length) + 1)
                (⟨RecvState.RECV_HEADERS, bnd, inm, line ++ b, kvs, rc, fn, tf⟩ : RecvFSM) =
                processLoopF (ln.length + rest.length + 1 + b.length)
                  ⟨RecvState.RECV_CONTENT, bnd, inm, rest ++ b, kvs, rc, fn, some []⟩ := by
              simp [processLoopF, hr2, hln, hfi]
            have horun : processLoopF (f + 1) (⟨RecvState.RECV_HEADERS, bnd, inm, line, kvs, rc, fn, tf⟩ : RecvFSM) =
                processLoopF f ⟨RecvState.RECV_CONTENT, bnd, inm, rest, kvs, rc, fn, some []⟩ := by
              simp [processLoopF, hr, hln, hfi]
            rw [hlhs, horun,
              ← processLoopF_mono (rest.length + b.length)
                ⟨RecvState.RECV_CONTENT, bnd, inm, rest ++ b, kvs, rc, fn, some []⟩
                (ln.length + rest.length + 1 + b.length) (by dsimp; simp) (by omega)]
            exact ih ⟨RecvState.RECV_CONTENT, bnd, inm, rest, kvs, rc, fn, some []⟩
              (by dsimp; omega) (by dsimp; omega)
          · have hlhs : processLoopF ((ln.length + rest.length + 1 + b.length) + 1)
                (⟨RecvState.RECV_HEADERS, bnd, inm, line ++ b, kvs, rc, fn, tf⟩ : RecvFSM) =
                processLoopF (ln.length + rest.length + 1 + b.length)
                  ⟨RecvState.RECV_CONTENT, bnd, inm, rest ++ b, kvs, rc, fn, tf⟩ := by
              simp [processLoopF, hr2, hln, hfi]
            have horun : processLoopF (f + 1) (⟨RecvState.RECV_HEADERS, bnd, inm, line, kvs, rc, fn, tf⟩ : RecvFSM) =
                processLoopF f ⟨RecvState.RECV_CONTENT, bnd, inm, rest, kvs, rc, fn, tf⟩ := by
              simp [processLoopF, hr, hln, hfi]
            rw [hlhs, horun,
              ← processLoopF_mono (rest.length + b.length)
                ⟨RecvState.RECV_CONTENT, bnd, inm, rest ++ b, kvs, rc, fn, tf⟩
                (ln.length + rest.length + 1 + b.length) (by dsimp; simp) (by omega)]
            exact ih ⟨RecvState.RECV_CONTENT, bnd, inm, rest, kvs, rc, fn, tf⟩
              (by dsimp; omega) (by dsimp; omega)
        · cases hp : parse_mime_header ln inm fn with
          | none =>
            have hlhs : processLoopF ((ln.length + rest.length + 1 + b.length) + 1)
                (⟨RecvState.RECV_HEADERS, bnd, inm, line ++ b, kvs, rc, fn, tf⟩ : RecvFSM) =
                (⟨RecvState.RECV_HEADERS, bnd, inm, rest ++ b, kvs, rc, fn, tf⟩, Res.badreq) := by
              simp [processLoopF, hr2, hln, hp]
            have horun : processLoopF (f + 1) (⟨RecvState.RECV_HEADERS, bnd, inm, line, kvs, rc, fn, tf⟩ : RecvFSM) =
                (⟨RecvState.RECV_HEADERS, bnd, inm, rest, kvs, rc, fn, tf⟩, Res.badreq) := by
              simp [processLoopF, hr, hln, hp]
            rw [hlhs, horun]
            rfl
          | some q =>
            obtain ⟨iname, fname⟩ := q
            have hlhs : processLoopF ((ln.length + rest.length + 1 + b.length) + 1)
                (⟨RecvState.RECV_HEADERS, bnd, inm, line ++ b, kvs, rc, fn, tf⟩ : RecvFSM) =
                processLoopF (ln.length + rest.length + 1 + b.length)
                  ⟨RecvState.RECV_HEADERS, bnd, iname, rest ++ b, kvs, rc, fname, tf⟩ := by
              simp [processLoopF, hr2, hln, hp]
            have horun : processLoopF (f + 1) (⟨RecvState.RECV_HEADERS, bnd, inm, line, kvs, rc, fn, tf⟩ : RecvFSM) =
                processLoopF f ⟨RecvState.RECV_HEADERS, bnd, iname, rest, kvs, rc, fname, tf⟩ := by
              simp [processLoopF, hr, hln, hp]
            rw [hlhs, horun,
              ← processLoopF_mono (rest.length + b.length)
                ⟨RecvState.RECV_HEADERS, bnd, iname, rest ++ b, kvs, rc, fname, tf⟩
                (ln.length + rest.length + 1 + b.length) (by dsimp; simp) (by omega)]
            exact ih ⟨RecvState.RECV_HEADERS, bnd, iname, rest, kvs, rc, fname, tf⟩
              (by dsimp; omega) (by dsimp; omega)
    case RECV_CONTENT =>
      by_cases hfi : optStrEq inm fileL = true
      · cases hr : readln line with
        | none =>
          have hg : ¬ MAX_CONTENT_LINE ≤ line.length := by omega
          have horun : processLoopF (f + 1) (⟨RecvState.RECV_CONTENT, bnd, inm, line, kvs, rc, fn, tf⟩ : RecvFSM) =
              (⟨RecvState.RECV_CONTENT, bnd, inm, line, kvs, rc, fn, tf⟩, Res.ok) := by
            simp [processLoopF, hfi, hr, hg]
          rw [horun]
          rfl
        | some p =>
          obtain ⟨ln, rest⟩ := p
          have hlen := readln_length hr
          have hr2 : readln (line ++ b) = some (ln, rest ++ b) := readln_append b hr
          have hfu : line.length + b.length =
              (ln.length + rest.length + 1 + b.length) + 1 := by omega
          rw [hfu]
          by_cases hb : strstrB ln bnd = true
          · have hlhs : processLoopF ((ln.length + rest.length + 1 + b.length) + 1)
                (⟨RecvState.RECV_CONTENT, bnd, inm, line ++ b, kvs, rc, fn, tf⟩ : RecvFSM) =
                processLoopF (ln.length + rest.length + 1 + b.length)
                  ⟨RecvState.RECV_HEADERS, bnd, none, rest ++ b, kvs, rc, fn, tf⟩ := by
              simp [processLoopF, hfi, hr2, hb]
            have horun : processLoopF (f + 1) (⟨RecvState.RECV_CONTENT, bnd, inm, line, kvs, rc, fn, tf⟩ : RecvFSM) =
                processLoopF f ⟨RecvState.RECV_HEADERS, bnd, none, rest, kvs, rc, fn, tf⟩ := by
              simp [processLoopF, hfi, hr, hb]
            rw [hlhs, horun,
              ← processLoopF_mono (rest.length + b.length)
                ⟨RecvState.RECV_HEADERS, bnd, none, rest ++ b, kvs, rc, fn, tf⟩
                (ln.length + rest.length + 1 + b.length) (by dsimp; simp) (by omega)]
            exact ih ⟨RecvState.RECV_HEADERS, bnd, none, rest, kvs, rc, fn, tf⟩
              (by dsimp; omega) (by dsimp; omega)
          · have hlhs : processLoopF ((ln.length + rest.length + 1 + b.length) + 1)
                (⟨RecvState.RECV_CONTENT, bnd, inm, line ++ b, kvs, rc, fn, tf⟩ : RecvFSM) =
                processLoopF (ln.length + rest.length + 1 + b.length)
                  ⟨RecvState.RECV_CONTENT, bnd, inm, rest ++ b, kvs, true, fn,
                    appendData tf ((if rc then [bCR, bLF] else []) ++ ln)⟩ := by
              simp [processLoopF, hfi, hr2, hb]
            have horun : processLoopF (f + 1) (⟨RecvState.RECV_CONTENT, bnd, inm, line, kvs, rc, fn, tf⟩ : RecvFSM) =
                processLoopF f
                  ⟨RecvState.RECV_CONTENT, bnd, inm, rest, kvs, true, fn,
                    appendData tf ((if rc then [bCR, bLF] else []) ++ ln)⟩ := by
              simp [processLoopF, hfi, hr, hb]
            rw [hlhs, horun,
              ← processLoopF_mono (rest.length + b.length)
                ⟨RecvState.RECV_CONTENT, bnd, inm, rest ++ b, kvs, true, fn,
                  appendData tf ((if rc then [bCR, bLF] else []) ++ ln)⟩
                (ln.length + rest.length + 1 + b.length) (by dsimp; simp) (by omega)]
            exact ih ⟨RecvState.RECV_CONTENT, bnd, inm, rest, kvs, true, fn,
                appendData tf ((if rc then [bCR, bLF] else []) ++ ln)⟩
              (by dsimp; omega) (by dsimp; omega)
      · cases hr : readln line with
        | none =>
          have horun : processLoopF (f + 1) (⟨RecvState.RECV_CONTENT, bnd, inm, line, kvs, rc, fn, tf⟩ : RecvFSM) =
              (⟨RecvState.RECV_CONTENT, bnd, inm, line, kvs, rc, fn, tf⟩, Res.ok) := by
            simp [processLoopF, hfi, hr]
          rw [horun]
          rfl
        | some p =>
          obtain ⟨ln, rest⟩ := p
          have hlen := readln_length hr
          have hr2 : readln (line ++ b) = some (ln, rest ++ b) := readln_append b hr
          have hfu : line.length + b.length =
              (ln.length + rest.length + 1 + b.length) + 1 := by omega
          rw [hfu]
          by_cases hb : strstrB ln bnd = true
          · have hlhs : processLoopF ((ln.length + rest.length + 1 + b.length) + 1)
                (⟨RecvState.RECV_CONTENT, bnd, inm, line ++ b, kvs, rc, fn, tf⟩ : RecvFSM) =
                processLoopF (ln.length + rest.length + 1 + b.length)
                  ⟨RecvState.RECV_HEADERS, bnd, none, rest ++ b, kvs, rc, fn, tf⟩ := by
              simp [processLoopF, hfi, hr2, hb]
            have horun : processLoopF (f + 1) (⟨RecvState.RECV_CONTENT, bnd, inm, line, kvs, rc, fn, tf⟩ : RecvFSM) =
                processLoopF f ⟨RecvState.RECV_HEADERS, bnd, none, rest, kvs, rc, fn, tf⟩ := by
              simp [processLoopF, hfi, hr, hb]
            rw [hlhs, horun,
              ← processLoopF_mono (rest.length + b.length)
                ⟨RecvState.RECV_HEADERS, bnd, none, rest ++ b, kvs, rc, fn, tf⟩
                (ln.length + rest.length + 1 + b.length) (by dsimp; simp) (by omega)]
            exact ih ⟨RecvState.RECV_HEADERS, bnd, none, rest, kvs, rc, fn, tf⟩
              (by dsimp; omega) (by dsimp; omega)
          · have hlhs : processLoopF ((ln.length + rest.length + 1 + b.length) + 1)
                (⟨RecvState.RECV_CONTENT, bnd, inm, line ++ b, kvs, rc, fn, tf⟩ : RecvFSM) =
                processLoopF (ln.length + rest.length + 1 + b.length)
                  ⟨RecvState.RECV_CONTENT, bnd, inm, rest ++ b,
                    kvInsert kvs (optVal inm) (cstr ln), rc, fn, tf⟩ := by
              simp [processLoopF, hfi, hr2, hb]
            have horun : processLoopF (f + 1) (⟨RecvState.RECV_CONTENT, bnd, inm, line, kvs, rc, fn, tf⟩ : RecvFSM) =
                processLoopF f
                  ⟨RecvState.RECV_CONTENT, bnd, inm, rest,
                    kvInsert kvs (optVal inm) (cstr ln), rc, fn, tf⟩ := by
              simp [processLoopF, hfi, hr, hb]
            rw [hlhs, horun,
              ← processLoopF_mono (rest.length + b.length)
                ⟨RecvState.RECV_CONTENT, bnd, inm, rest ++ b,
                  kvInsert kvs (optVal inm) (cstr ln), rc, fn, tf⟩
                (ln.length + rest.length + 1 + b.length) (by dsimp; simp) (by omega)]
            exact ih ⟨RecvState.RECV_CONTENT, bnd, inm, rest,
                kvInsert kvs (optVal inm) (cstr ln), rc, fn, tf⟩
              (by dsimp; omega) (by dsimp; omega)



theorem upload_read_cb_error {st : ReqState} (buf : List Char)
    (h : st.fsm.state = RecvState.RECV_ERROR) : upload_read_cb st buf = st := by
  simp [upload_read_cb, h]

theorem runChunks_error {st : ReqState} (chunks : List (List Char))
    (h : st.fsm.state = RecvState.RECV_ERROR) : runChunks st chunks = st := by
  induction chunks with
  | nil => rfl
  | cons a t ih =>
    show runChunks (upload_read_cb st a) t = st
    rw [upload_read_cb_error a h]
    exact ih

theorem upload_read_cb_not_error {st : ReqState} (buf : List Char)
    (h : ¬ st.fsm.state = RecvState.RECV_ERROR) :
    upload_read_cb st buf =
      (if (processLoopF (st.fsm.line.length + buf.length)
            { st.fsm with line := st.fsm.line ++ buf }).2 = Res.ok then
        ({ fsm := (processLoopF (st.fsm.line.length + buf.length)
              { st.fsm with line := st.fsm.line ++ buf }).1,
           progress := { st.progress with
             uploaded := st.progress.uploaded + (buf.length : Int) } } : ReqState)
      else
        { fsm := { (processLoopF (st.fsm.line.length + buf.length)
              { st.fsm with line := st.fsm.line ++ buf }).1 with
                state := RecvState.RECV_ERROR },
          progress := { st.progress with
            uploaded := st.progress.uploaded + (buf.length : Int) } }) := by
  simp only [upload_read_cb, h, if_false, List.length_append]

theorem runChunks_eq_single :
    ∀ (chunks : List (List Char)) (st : ReqState),
      Quiescent st.fsm →
      st.fsm.line.length + (chunksJoin chunks).length < MAX_CONTENT_LINE →
      (runChunks st chunks).fsm.tmp_file =
          (upload_read_cb st (chunksJoin chunks)).fsm.tmp_file ∧
        (runChunks st chunks).fsm.form_kvs =
          (upload_read_cb st (chunksJoin chunks)).fsm.form_kvs := by
  intro chunks
  induction chunks with
  | nil =>
    intro st hq _
    by_cases herr : st.fsm.state = RecvState.RECV_ERROR
    · rw [show chunksJoin [] = [] from rfl, upload_read_cb_error [] herr]
      exact ⟨rfl, rfl⟩
    · have hq0 : Quiescent { st.fsm with line := st.fsm.line ++ [] } := by
        rcases hq with h1 | ⟨h2, h3⟩
        · exact Or.inl h1
        · exact Or.inr ⟨by simpa using h2, fun hc hf => by simpa using h3 hc hf⟩
      have hcb : (upload_read_cb st []).fsm = { st.fsm with line := st.fsm.line ++ [] } := by
        rw [upload_read_cb_not_error [] herr, quiescent_run hq0]
        simp
      rw [show chunksJoin [] = [] from rfl]
      constructor
      · show st.fsm.tmp_file = _
        rw [hcb]
      · show st.fsm.form_kvs = _
        rw [hcb]
  | cons a t ih =>
    intro st hq hlen
    have hJ : chunksJoin (a :: t) = a ++ chunksJoin t := rfl
    have hrun : runChunks st (a :: t) = runChunks (upload_read_cb st a) t := rfl
    by_cases herr : st.fsm.state = RecvState.RECV_ERROR
    · rw [hrun, upload_read_cb_error a herr, runChunks_error t herr, hJ,
        upload_read_cb_error _ herr]
      exact ⟨rfl, rfl⟩
    · have hJlen : (chunksJoin (a :: t)).length = a.length + (chunksJoin t).length := by
        rw [hJ]; simp
      rw [hJlen] at hlen
      have happ := processLoopF_append (chunksJoin t) (st.fsm.line.length + a.length)
        ({ st.fsm with line := st.fsm.line ++ a }) (by simp)
        (by simp only [List.length_append]; omega)
      have hconv : ∀ Z : RecvFSM × Res,
          processLoopF (st.fsm.line.length + a.length)
              { st.fsm with line := st.fsm.line ++ a } = Z →
          processLoopF (st.fsm.line.length + (a ++ chunksJoin t).length)
              { st.fsm with line := st.fsm.line ++ (a ++ chunksJoin t) } =
            (if Z.2 = Res.ok then
              processLoopF (Z.1.line.length + (chunksJoin t).length)
                { Z.1 with line := Z.1.line ++ chunksJoin t }
            else ({ Z.1 with line := Z.1.line ++ chunksJoin t }, Z.2)) := by
        intro Z hZ
        have e1 : st.fsm.line ++ (a ++ chunksJoin t) = (st.fsm.line ++ a) ++ chunksJoin t := by
          rw [List.append_assoc]
        have e2 : st.fsm.line.length + (a ++ chunksJoin t).length =
            ({ st.fsm with line := st.fsm.line ++ a } : RecvFSM).line.length +
              (chunksJoin t).length := by
          simp only [List.length_append]; omega
        rw [e2, show ({ st.fsm with line := st.fsm.line ++ (a ++ chunksJoin t) } : RecvFSM) =
            { st.fsm with line := (st.fsm.line ++ a) ++ chunksJoin t } from by rw [e1]]
        rw [hZ] at happ
        exact happ
      by_cases hok : (processLoopF (st.fsm.line.length + a.length)
          { st.fsm with line := st.fsm.line ++ a }).2 = Res.ok
      · have hst1 : upload_read_cb st a =
            (⟨(processLoopF (st.fsm.line.length + a.length)
                 { st.fsm with line := st.fsm.line ++ a }).1,
              ⟨st.progress.uploaded + (a.length : Int), st.progress.size⟩⟩ : ReqState) := by
          rw [upload_read_cb_not_error a herr, if_pos hok]
        have hb1 := processLoopF_basic (st.fsm.line.length + a.length)
          { st.fsm with line := st.fsm.line ++ a }
        have hnerr1 : ¬ (processLoopF (st.fsm.line.length + a.length)
            { st.fsm with line := st.fsm.line ++ a }).1.state = RecvState.RECV_ERROR := by
          intro hcon
          exact herr (by simpa using hb1.2 hcon)
        have hq1 : Quiescent (processLoopF (st.fsm.line.length + a.length)
            { st.fsm with line := st.fsm.line ++ a }).1 :=
          quiescent_after _ _ (by simp) hok
        have hlen1 : (processLoopF (st.fsm.line.length + a.length)
            { st.fsm with line := st.fsm.line ++ a }).1.line.length +
              (chunksJoin t).length < MAX_CONTENT_LINE := by
          have e3 : ({ st.fsm with line := st.fsm.line ++ a } : RecvFSM).line.length =
              st.fsm.line.length + a.length := by simp
          have h1 := hb1.1
          rw [e3] at h1
          omega
        have ihst1 := ih
          (⟨(processLoopF (st.fsm.line.length + a.length)
               { st.fsm with line := st.fsm.line ++ a }).1,
            ⟨st.progress.uploaded + (a.length : Int), st.progress.size⟩⟩ : ReqState) hq1 hlen1
        have hmid : (upload_read_cb
            (⟨(processLoopF (st.fsm.line.length + a.length)
                 { st.fsm with line := st.fsm.line ++ a }).1,
              ⟨st.progress.uploaded + (a.length : Int), st.progress.size⟩⟩ : ReqState)
            (chunksJoin t)).fsm =
            (upload_read_cb st (a ++ chunksJoin t)).fsm := by
          rw [upload_read_cb_not_error (chunksJoin t) hnerr1,
            upload_read_cb_not_error _ herr, hconv _ rfl, if_pos hok]
          dsimp only
          by_cases hok2 : (processLoopF ((processLoopF (st.fsm.line.length + a.length)
                { st.fsm with line := st.fsm.line ++ a }).1.line.length +
                (chunksJoin t).length)
              { (processLoopF (st.fsm.line.length + a.length)
                  { st.fsm with line := st.fsm.line ++ a }).1 with
                  line := (processLoopF (st.fsm.line.length + a.length)
                    { st.fsm with line := st.fsm.line ++ a }).1.line ++
                    chunksJoin t }).2 = Res.ok
          · rw [if_pos hok2, if_pos hok2]
          · rw [if_neg hok2, if_neg hok2]
        rw [hrun, hst1, hJ]
        exact ⟨ihst1.1.trans (congrArg RecvFSM.tmp_file hmid),
          ihst1.2.trans (congrArg RecvFSM.form_kvs hmid)⟩
      · have hst1 : upload_read_cb st a =
            (⟨{ (processLoopF (st.fsm.line.length + a.length)
                  { st.fsm with line := st.fsm.line ++ a }).1 with
                  state := RecvState.RECV_ERROR },
              ⟨st.progress.uploaded + (a.length : Int), st.progress.size⟩⟩ : ReqState) := by
          rw [upload_read_cb_not_error a herr, if_neg hok]
        have hsingle : (upload_read_cb st (a ++ chunksJoin t)).fsm =
            { (processLoopF (st.fsm.line.length + a.length)
                { st.fsm with line := st.fsm.line ++ a }).1 with
                line := (processLoopF (st.fsm.line.length + a.length)
                  { st.fsm with line := st.fsm.line ++ a }).1.line ++ chunksJoin t,
                state := RecvState.RECV_ERROR } := by
          rw [upload_read_cb_not_error _ herr, hconv _ rfl, if_neg hok, if_neg hok]
        rw [hrun, hst1, runChunks_error t rfl, hJ]
        constructor
        · show ({ (processLoopF (st.fsm.line.length + a.length)
              { st.fsm with line := st.fsm.line ++ a }).1 with
                state := RecvState.RECV_ERROR } : RecvFSM).tmp_file = _
          rw [hsingle]
        · show ({ (processLoopF (st.fsm.line.length + a.length)
              { st.fsm with line := st.fsm.line ++ a }).1 with
                state := RecvState.RECV_ERROR } : RecvFSM).form_kvs = _
          rw [hsingle]

/-! ### Single-step characterizations of the loop, and the round trip -/

theorem readln_nil_of_short {fsm : RecvFSM} (hf : fsm.line.length ≤ 0) :
    fsm.line = [] :=
  List.eq_nil_of_length_eq_zero (Nat.le_zero.mp hf)

theorem step_init {fsm : RecvFSM} {ln rest : List Char} (f : Nat)
    (hst : fsm.state = RecvState.RECV_INIT) (hr : readln fsm.line = some (ln, rest))
    (hb : strstrB ln fsm.boundary = true) (hf : fsm.line.length ≤ f) :
    processLoopF f fsm =
      processLoopF rest.length
        { fsm with state := RecvState.RECV_HEADERS, line := rest } := by
  have hlen := readln_length hr
  cases f with
  | zero =>
    rw [readln_nil_of_short hf] at hr
    exact absurd hr (by simp [readln])
  | succ f =>
    have hstep : processLoopF (f + 1) fsm =
        processLoopF f { fsm with state := RecvState.RECV_HEADERS, line := rest } := by
      simp [processLoopF, hst, hr, hb]
    rw [hstep, ← processLoopF_mono rest.length
      { fsm with state := RecvState.RECV_HEADERS, line := rest } f (by simp) (by omega)]

theorem step_headers_blank_other {fsm : RecvFSM} {rest : List Char} (f : Nat)
    (hst : fsm.state = RecvState.RECV_HEADERS) (hr : readln fsm.line = some ([], rest))
    (hfi : optStrEq fsm.input_name fileL = false) (hf : fsm.line.length ≤ f) :
    processLoopF f fsm =
      processLoopF rest.length
        { fsm with state := RecvState.RECV_CONTENT, line := rest } := by
  have hlen := readln_length hr
  cases f with
  | zero =>
    rw [readln_nil_of_short hf] at hr
    exact absurd hr (by simp [readln])
  | succ f =>
    have hstep : processLoopF (f + 1) fsm =
        processLoopF f { fsm with state := RecvState.RECV_CONTENT, line := rest } := by
      simp [processLoopF, hst, hr, hfi]
    rw [hstep, ← processLoopF_mono rest.length
      { fsm with state := RecvState.RECV_CONTENT, line := rest } f (by simp) (by omega)]

theorem step_headers_blank_file {fsm : RecvFSM} {rest : List Char} (f : Nat)
    (hst : fsm.state = RecvState.RECV_HEADERS) (hr : readln fsm.line = some ([], rest))
    (hfi : optStrEq fsm.input_name fileL = true) (hf : fsm.line.length ≤ f) :
    processLoopF f fsm =
      processLoopF rest.length
        { fsm with state := RecvState.RECV_CONTENT, line := rest,
                   tmp_file := some [] } := by
  have hlen := readln_length hr
  cases f with
  | zero =>
    rw [readln_nil_of_short hf] at hr
    exact absurd hr (by simp [readln])
  | succ f =>
    have hstep : processLoopF (f + 1) fsm =
        processLoopF f
          { fsm with state := RecvState.RECV_CONTENT, line := rest,
                     tmp_file := some [] } := by
      simp [processLoopF, hst, hr, hfi]
    rw [hstep, ← processLoopF_mono rest.length
      { fsm with state := RecvState.RECV_CONTENT, line := rest, tmp_file := some [] }
      f (by simp) (by omega)]

theorem step_headers_line {fsm : RecvFSM} {ln rest : List Char}
    {iname fname : Option (List Char)} (f : Nat)
    (hst : fsm.state = RecvState.RECV_HEADERS) (hr : readln fsm.line = some (ln, rest))
    (hln : ln ≠ [])
    (hp : parse_mime_header ln fsm.input_name fsm.file_name = some (iname, fname))
    (hf : fsm.line.length ≤ f) :
    processLoopF f fsm =
      processLoopF rest.length
        { fsm with line := rest, input_name := iname, file_name := fname } := by
  have hlen := readln_length hr
  cases f with
  | zero =>
    rw [readln_nil_of_short hf] at hr
    exact absurd hr (by simp [readln])
  | succ f =>
    have hstep : processLoopF (f + 1) fsm =
        processLoopF f
          { fsm with line := rest, input_name := iname, file_name := fname } := by
      simp [processLoopF, hst, hr, hln, hp]
    rw [hstep, ← processLoopF_mono rest.length
      { fsm with line := rest, input_name := iname, file_name := fname }
      f (by simp) (by omega)]

theorem step_content_bound {fsm : RecvFSM} {ln rest : List Char} (f : Nat)
    (hst : fsm.state = RecvState.RECV_CONTENT) (hr : readln fsm.line = some (ln, rest))
    (hb : strstrB ln fsm.boundary = true) (hf : fsm.line.length ≤ f) :
    processLoopF f fsm =
      processLoopF rest.length
        { fsm with input_name := none, state := RecvState.RECV_HEADERS,
                   line := rest } := by
  have hlen := readln_length hr
  cases f with
  | zero =>
    rw [readln_nil_of_short hf] at hr
    exact absurd hr (by simp [readln])
  | succ f =>
    have hstep : processLoopF (f + 1) fsm =
        processLoopF f
          { fsm with input_name := none, state := RecvState.RECV_HEADERS,
                     line := rest } := by
      by_cases hfi : optStrEq fsm.input_name fileL = true
      · simp [processLoopF, hst, hr, hb, hfi]
      · simp [processLoopF, hst, hr, hb, hfi]
    rw [hstep, ← processLoopF_mono rest.length
      { fsm with input_name := none, state := RecvState.RECV_HEADERS, line := rest }
      f (by simp) (by omega)]

theorem step_form_data {fsm : RecvFSM} {ln rest : List Char} (f : Nat)
    (hst : fsm.state = RecvState.RECV_CONTENT) (hr : readln fsm.line = some (ln, rest))
    (hfi : optStrEq fsm.input_name fileL = false)
    (hb : strstrB ln fsm.boundary = false) (hf : fsm.line.length ≤ f) :
    processLoopF f fsm =
      processLoopF rest.length
        { fsm with form_kvs := kvInsert fsm.form_kvs (optVal fsm.input_name) (cstr ln),
                   line := rest } := by
  have hlen := readln_length hr
  cases f with
  | zero =>
    rw [readln_nil_of_short hf] at hr
    exact absurd hr (by simp [readln])
  | succ f =>
    have hstep : processLoopF (f + 1) fsm =
        processLoopF f
          { fsm with form_kvs := kvInsert fsm.form_kvs (optVal fsm.input_name) (cstr ln),
                     line := rest } := by
      simp [processLoopF, hst, hr, hfi, hb]
    rw [hstep, ← processLoopF_mono rest.length
      { fsm with form_kvs := kvInsert fsm.form_kvs (optVal fsm.input_name) (cstr ln),
                 line := rest }
      f (by simp) (by omega)]

theorem step_file_data {fsm : RecvFSM} {ln rest : List Char} (f : Nat)
    (hst : fsm.state = RecvState.RECV_CONTENT) (hr : readln fsm.line = some (ln, rest))
    (hfi : optStrEq fsm.input_name fileL = true)
    (hb : strstrB ln fsm.boundary = false) (hf : fsm.line.length ≤ f) :
    processLoopF f fsm =
      processLoopF rest.length
        { fsm with tmp_file := appendData fsm.tmp_file
                     ((if fsm.recved_crlf then [bCR, bLF] else []) ++ ln),
                   recved_crlf := true, line := rest } := by
  have hlen := readln_length hr
  cases f with
  | zero =>
    rw [readln_nil_of_short hf] at hr
    exact absurd hr (by simp [readln])
  | succ f =>
    have hstep : processLoopF (f + 1) fsm =
        processLoopF f
          { fsm with tmp_file := appendData fsm.tmp_file
                       ((if fsm.recved_crlf then [bCR, bLF] else []) ++ ln),
                     recved_crlf := true, line := rest } := by
      simp [processLoopF, hst, hr, hfi, hb]
    rw [hstep, ← processLoopF_mono rest.length
      { fsm with tmp_file := appendData fsm.tmp_file
                   ((if fsm.recved_crlf then [bCR, bLF] else []) ++ ln),
                 recved_crlf := true, line := rest }
      f (by simp) (by omega)]

theorem step_file_flush {fsm : RecvFSM} (f : Nat)
    (hst : fsm.state = RecvState.RECV_CONTENT) (hr : readln fsm.line = none)
    (hfi : optStrEq fsm.input_name fileL = true)
    (hg : MAX_CONTENT_LINE ≤ fsm.line.length) (hf : 1 ≤ f) :
    processLoopF f fsm =
      ({ fsm with tmp_file := appendData fsm.tmp_file
                    ((if fsm.recved_crlf then [bCR, bLF] else []) ++ fsm.line),
                  line := [], recved_crlf := false }, Res.ok) := by
  cases f with
  | zero => omega
  | succ f => simp [processLoopF, hst, hr, hfi, hg]



theorem filePart :
    ∀ (segs : List (List Char)) (f : Nat) (fsm : RecvFSM) (d close rest : List Char),
      fsm.state = RecvState.RECV_CONTENT →
      optStrEq fsm.input_name fileL = true →
      fsm.tmp_file = some d →
      fsm.line = segsBuf segs (close ++ bCR :: bLF :: rest) →
      (∀ s ∈ segs, hasCRLF s = false ∧ strstrB s fsm.boundary = false) →
      hasCRLF close = false →
      strstrB close fsm.boundary = true →
      fsm.line.length ≤ f →
      processLoopF f fsm =
        processLoopF rest.length
          { fsm with state := RecvState.RECV_HEADERS, input_name := none,
                     recved_crlf := (if segs.isEmpty then fsm.recved_crlf else true),
                     tmp_file := some (d ++ written fsm.recved_crlf segs),
                     line := rest } := by
  intro segs
  induction segs with
  | nil =>
    intro f fsm d close rest hst hfi htmp hline hsegs hclc hclb hf
    have hrl : readln fsm.line = some (close, rest) := by
      rw [hline]
      exact readln_seg close rest hclc
    rw [step_content_bound f hst hrl hclb hf]
    have hrec : ({ fsm with input_name := none, state := RecvState.RECV_HEADERS, line := rest } : RecvFSM) =
        { fsm with state := RecvState.RECV_HEADERS, input_name := none,
                   recved_crlf := (if ([] : List (List Char)).isEmpty then fsm.recved_crlf else true),
                   tmp_file := some (d ++ written fsm.recved_crlf []),
                   line := rest } := by
      simp [written, htmp]
    rw [hrec]
  | cons s segs ih =>
    intro f fsm d close rest hst hfi htmp hline hsegs hclc hclb hf
    have hs := hsegs s (List.mem_cons_self _ _)
    have hrl : readln fsm.line = some (s, segsBuf segs (close ++ bCR :: bLF :: rest)) := by
      rw [hline]
      show readln (s ++ bCR :: bLF :: segsBuf segs (close ++ bCR :: bLF :: rest)) = _
      exact readln_seg s _ hs.1
    rw [step_file_data f hst hrl hfi hs.2 hf]
    have hlen2 := readln_length hrl
    have hih := ih (segsBuf segs (close ++ bCR :: bLF :: rest)).length
      { fsm with tmp_file := appendData fsm.tmp_file
                   ((if fsm.recved_crlf then [bCR, bLF] else []) ++ s),
                 recved_crlf := true,
                 line := segsBuf segs (close ++ bCR :: bLF :: rest) }
      (d ++ ((if fsm.recved_crlf then [bCR, bLF] else []) ++ s)) close rest
      (by simp [hst]) (by simp [hfi]) (by simp [htmp, appendData]) (by simp)
      (by intro x hx; simpa using hsegs x (List.mem_cons_of_mem _ hx)) hclc
      (by simpa using hclb) (by simp)
    rw [hih]
    congr 1
    have hw : written fsm.recved_crlf (s :: segs) =
        ((if fsm.recved_crlf then [bCR, bLF] else []) ++ s) ++ written true segs := by
      simp [written, List.append_assoc]
    simp [hw, List.append_assoc]



theorem readln_crlf (r : List Char) : readln (bCR :: bLF :: r) = some ([], r) := by
  simp [readln]

theorem cstr_eq_self {l : List Char} (h : ∀ c ∈ l, ¬ c = bNUL) : cstr l = l :=
  List.takeWhile_eq_self_iff.mpr (by
    intro c hc
    simpa using h c hc)

/-- Claim C1: a well-formed multipart body carrying a `parent_dir`
field with value `P` (NUL-, CRLF- and boundary-free: `g_strdup` in
`recv_form_field` truncates the stored value at the first NUL byte)
and a file part with payload `B` (no line of which contains the
boundary) leaves `form_kvs["parent_dir"] = P` and a temp file equal to
`B` byte for byte, internal CRLF sequences included. -/
theorem c1_roundtrip (cl : Int) (P B : List Char)
    (hP0 : ∀ c ∈ P, ¬ c = bNUL)
    (hP1 : hasCRLF P = false) (hP2 : strstrB P bnd1 = false)
    (hB : ∀ s ∈ splitCRLF B, strstrB s bnd1 = false) :
    kvLookup (upload_read_cb (initReq bnd1 cl) (uploadBody P B)).fsm.form_kvs parentDirL =
        some P ∧
      (upload_read_cb (initReq bnd1 cl) (uploadBody P B)).fsm.tmp_file = some B := by
  have h1 : processLoopF (uploadBody P B).length
        (⟨RecvState.RECV_INIT, bnd1, none, uploadBody P B, [], false, none, none⟩ : RecvFSM) =
      processLoopF (upR1 P B).length
        ⟨RecvState.RECV_HEADERS, bnd1, none, upR1 P B, [], false, none, none⟩ := by
    have := @step_init ⟨RecvState.RECV_INIT, bnd1, none, uploadBody P B, [], false,
        none, none⟩ bLine1 (upR1 P B) (uploadBody P B).length
      rfl (readln_seg bLine1 (upR1 P B) (by decide))
      (show strstrB bLine1 bnd1 = true from by decide) (Nat.le_refl _)
    exact this
  have h2 : processLoopF (upR1 P B).length
        (⟨RecvState.RECV_HEADERS, bnd1, none, upR1 P B, [], false, none, none⟩ : RecvFSM) =
      processLoopF (upR2 P B).length
        ⟨RecvState.RECV_HEADERS, bnd1, some parentDirL, upR2 P B, [], false, none, none⟩ := by
    have := @step_headers_line ⟨RecvState.RECV_HEADERS, bnd1, none, upR1 P B, [],
        false, none, none⟩ bCD1 (upR2 P B)
      (some parentDirL) none (upR1 P B).length
      rfl (readln_seg bCD1 (upR2 P B) (by decide))
      (show bCD1 ≠ [] from by decide)
      (show parse_mime_header bCD1 none none = some (some parentDirL, none) from by decide)
      (Nat.le_refl _)
    exact this
  have h3 : processLoopF (upR2 P B).length
        (⟨RecvState.RECV_HEADERS, bnd1, some parentDirL, upR2 P B, [], false, none,
          none⟩ : RecvFSM) =
      processLoopF (upR3 P B).length
        ⟨RecvState.RECV_CONTENT, bnd1, some parentDirL, upR3 P B, [], false, none, none⟩ := by
    have := @step_headers_blank_other ⟨RecvState.RECV_HEADERS, bnd1, some parentDirL,
        upR2 P B, [], false, none, none⟩ (upR3 P B) (upR2 P B).length
      rfl (readln_crlf (upR3 P B))
      (show optStrEq (some parentDirL) fileL = false from by decide) (Nat.le_refl _)
    exact this
  have h4 : processLoopF (upR3 P B).length
        (⟨RecvState.RECV_CONTENT, bnd1, some parentDirL, upR3 P B, [], false, none,
          none⟩ : RecvFSM) =
      processLoopF (upR4 B).length
        ⟨RecvState.RECV_CONTENT, bnd1, some parentDirL, upR4 B,
          [(parentDirL, P)], false, none, none⟩ := by
    have := @step_form_data ⟨RecvState.RECV_CONTENT, bnd1, some parentDirL,
        upR3 P B, [], false, none, none⟩ P (upR4 B) (upR3 P B).length
      rfl (readln_seg P (upR4 B) hP1)
      (show optStrEq (some parentDirL) fileL = false from by decide) hP2 (Nat.le_refl _)
    rw [cstr_eq_self hP0] at this
    exact this
  have h5 : processLoopF (upR4 B).length
        (⟨RecvState.RECV_CONTENT, bnd1, some parentDirL, upR4 B, [(parentDirL, P)], false,
          none, none⟩ : RecvFSM) =
      processLoopF (upR5 B).length
        ⟨RecvState.RECV_HEADERS, bnd1, none, upR5 B, [(parentDirL, P)], false, none, none⟩ := by
    have := @step_content_bound ⟨RecvState.RECV_CONTENT, bnd1, some parentDirL,
        upR4 B, [(parentDirL, P)], false, none, none⟩ bLine1 (upR5 B)
      (upR4 B).length rfl (readln_seg bLine1 (upR5 B) (by decide))
      (show strstrB bLine1 bnd1 = true from by decide) (Nat.le_refl _)
    exact this
  have h6 : processLoopF (upR5 B).length
        (⟨RecvState.RECV_HEADERS, bnd1, none, upR5 B, [(parentDirL, P)], false, none,
          none⟩ : RecvFSM) =
      processLoopF (upR6 B).length
        ⟨RecvState.RECV_HEADERS, bnd1, some fileL, upR6 B, [(parentDirL, P)], false,
          some ("a.txt".toList), none⟩ := by
    have := @step_headers_line ⟨RecvState.RECV_HEADERS, bnd1, none, upR5 B,
        [(parentDirL, P)], false, none, none⟩ bCD2 (upR6 B)
      (some fileL) (some ("a.txt".toList)) (upR5 B).length
      rfl (readln_seg bCD2 (upR6 B) (by decide))
      (show bCD2 ≠ [] from by decide)
      (show parse_mime_header bCD2 none none =
        some (some fileL, some ("a.txt".toList)) from by decide)
      (Nat.le_refl _)
    exact this
  have h7 : processLoopF (upR6 B).length
        (⟨RecvState.RECV_HEADERS, bnd1, some fileL, upR6 B, [(parentDirL, P)], false,
          some ("a.txt".toList), none⟩ : RecvFSM) =
      processLoopF (upR7 B).length
        ⟨RecvState.RECV_CONTENT, bnd1, some fileL, upR7 B, [(parentDirL, P)], false,
          some ("a.txt".toList), some []⟩ := by
    have := @step_headers_blank_file ⟨RecvState.RECV_HEADERS, bnd1, some fileL,
        upR6 B, [(parentDirL, P)], false, some ("a.txt".toList), none⟩ (upR7 B)
      (upR6 B).length rfl (readln_crlf (upR7 B))
      (show optStrEq (some fileL) fileL = true from by decide) (Nat.le_refl _)
    exact this
  have h8 : processLoopF (upR7 B).length
        (⟨RecvState.RECV_CONTENT, bnd1, some fileL, upR7 B, [(parentDirL, P)], false,
          some ("a.txt".toList), some []⟩ : RecvFSM) =
      ((⟨RecvState.RECV_HEADERS, bnd1, none, [], [(parentDirL, P)],
          (if (splitCRLF B).isEmpty then false else true),
          some ("a.txt".toList), some ([] ++ written false (splitCRLF B))⟩ : RecvFSM),
        Res.ok) := by
    have hfp := filePart (splitCRLF B) (upR7 B).length
      (⟨RecvState.RECV_CONTENT, bnd1, some fileL, upR7 B, [(parentDirL, P)], false,
        some ("a.txt".toList), some []⟩ : RecvFSM)
      [] bClose []
      rfl (show optStrEq (some fileL) fileL = true from by decide) rfl
      (by
        show upR7 B = segsBuf (splitCRLF B) (bClose ++ bCR :: bLF :: [])
        rw [segsBuf_splitCRLF]
        rfl)
      (by
        intro s hs
        exact ⟨hasCRLF_of_mem_splitCRLF hs, hB s hs⟩)
      (show hasCRLF bClose = false from by decide)
      (show strstrB bClose bnd1 = true from by decide) (Nat.le_refl _)
    rw [hfp]
    rfl
  have hchain := ((((((h1.trans h2).trans h3).trans h4).trans h5).trans h6).trans h7).trans h8
  have herr : ¬ (initReq bnd1 cl).fsm.state = RecvState.RECV_ERROR := by
    intro h
    exact absurd (show RecvState.RECV_INIT = RecvState.RECV_ERROR from h) (by decide)
  rw [upload_read_cb_not_error (uploadBody P B) herr]
  rw [show ({ (initReq bnd1 cl).fsm with
      line := (initReq bnd1 cl).fsm.line ++ uploadBody P B } : RecvFSM) =
    (⟨RecvState.RECV_INIT, bnd1, none, uploadBody P B, [], false, none, none⟩ : RecvFSM)
    from rfl]
  rw [show (initReq bnd1 cl).fsm.line.length + (uploadBody P B).length =
    (uploadBody P B).length from by simp [initReq, initFSM]]
  rw [hchain]
  constructor
  · simp [kvLookup]
  · show some ([] ++ written false (splitCRLF B)) = some B
    rw [List.nil_append, (written_eq (splitCRLF B)).1, joinCRLF_splitCRLF]

theorem step_headers_badparse {fsm : RecvFSM} {ln rest : List Char} (f : Nat)
    (hst : fsm.state = RecvState.RECV_HEADERS) (hr : readln fsm.line = some (ln, rest))
    (hln : ln ≠ [])
    (hp : parse_mime_header ln fsm.input_name fsm.file_name = none)
    (hf : fsm.line.length ≤ f) :
    processLoopF f fsm = ({ fsm with line := rest }, Res.badreq) := by
  have hlen := readln_length hr
  cases f with
  | zero =>
    rw [readln_nil_of_short hf] at hr
    exact absurd hr (by simp [readln])
  | succ f => simp [processLoopF, hst, hr, hln, hp]

theorem hasCRLF_of_no_CR {l : List Char} (h : ∀ c ∈ l, ¬ c = bCR) :
    hasCRLF l = false := by
  induction l with
  | nil => rfl
  | cons c t ih =>
    cases t with
    | nil => rfl
    | cons d u =>
      simp only [hasCRLF, Bool.or_eq_false_iff, decide_eq_false_iff_not]
      constructor
      · intro hc
        exact h c (List.mem_cons_self _ _) hc.1
      · exact ih (fun x hx => h x (List.mem_cons_of_mem _ hx))


theorem hasSub_append_left (needle l t : List Char) (h : hasSub needle t = true) :
    hasSub needle (l ++ t) = true := by
  induction l with
  | nil => simpa using h
  | cons c u ih =>
    show hasSub needle (c :: (u ++ t)) = true
    simp only [hasSub, Bool.or_eq_true]
    exact Or.inr ih

theorem cexRun_no_CR : ∀ c ∈ cexRun, ¬ c = bCR := by
  intro c hc
  simp only [cexRun, List.mem_append, List.mem_replicate, List.mem_singleton] at hc
  rcases hc with ⟨-, h⟩ | h <;> subst h <;> decide

theorem cexRun_hasCRLF : hasCRLF cexRun = false :=
  hasCRLF_of_no_CR cexRun_no_CR

theorem cexRun_length : cexRun.length = 10240 := by
  rw [cexRun, List.length_append, List.length_replicate]
  rfl

theorem cexRun_strstrB : strstrB cexRun cexBnd = true := by
  rw [strstrB, cstr_eq_self (by
    intro c hc
    simp only [cexRun, List.mem_append, List.mem_replicate, List.mem_singleton] at hc
    rcases hc with ⟨-, h⟩ | h <;> subst h <;> decide)]
  exact hasSub_append_left cexBnd (List.replicate 10239 'a') ['B'] (by decide)

theorem cexRun_ne_nil : cexRun ≠ [] := by
  intro h
  have := congrArg List.length h
  rw [cexRun_length] at this
  simp at this

/-- The single-shot delivery of `cexBody`: the whole long run is one
buffered line, the boundary byte inside it is seen by `strstr`, and the
file part ends with nothing written; the closing boundary line then
fails MIME-header parsing and the request dies with BadRequest. -/
theorem cex_single_shot :
    (upload_read_cb (initReq cexBnd 0) cexBody).fsm.tmp_file = some [] := by
  have hbody : cexBody = cexL1 ++ bCR :: bLF ::
      (cexCD ++ bCR :: bLF :: bCR :: bLF ::
        (cexRun ++ bCR :: bLF :: (cexClose ++ [bCR, bLF]))) := by
    simp [cexBody, cexChunk1, cexChunk2, List.append_assoc]
  have h1 : processLoopF cexBody.length
        (⟨RecvState.RECV_INIT, cexBnd, none, cexBody, [], false, none, none⟩ : RecvFSM) =
      processLoopF (cexCD ++ bCR :: bLF :: bCR :: bLF ::
          (cexRun ++ bCR :: bLF :: (cexClose ++ [bCR, bLF]))).length
        ⟨RecvState.RECV_HEADERS, cexBnd, none,
          cexCD ++ bCR :: bLF :: bCR :: bLF ::
            (cexRun ++ bCR :: bLF :: (cexClose ++ [bCR, bLF])), [], false, none, none⟩ := by
    exact step_init cexBody.length rfl
      (by rw [show (⟨RecvState.RECV_INIT, cexBnd, none, cexBody, [], false, none,
          none⟩ : RecvFSM).line = cexL1 ++ bCR :: bLF ::
            (cexCD ++ bCR :: bLF :: bCR :: bLF ::
              (cexRun ++ bCR :: bLF :: (cexClose ++ [bCR, bLF]))) from hbody]
          exact readln_seg _ _ (by decide))
      (show strstrB cexL1 cexBnd = true from by decide) (Nat.le_refl _)
  have h2 : processLoopF (cexCD ++ bCR :: bLF :: bCR :: bLF ::
          (cexRun ++ bCR :: bLF :: (cexClose ++ [bCR, bLF]))).length
        (⟨RecvState.RECV_HEADERS, cexBnd, none,
          cexCD ++ bCR :: bLF :: bCR :: bLF ::
            (cexRun ++ bCR :: bLF :: (cexClose ++ [bCR, bLF])), [], false, none,
          none⟩ : RecvFSM) =
      processLoopF (bCR :: bLF :: (cexRun ++ bCR :: bLF :: (cexClose ++ [bCR, bLF]))).length
        ⟨RecvState.RECV_HEADERS, cexBnd, some fileL,
          bCR :: bLF :: (cexRun ++ bCR :: bLF :: (cexClose ++ [bCR, bLF])), [], false,
          some ("a".toList), none⟩ :=
    step_headers_line _ rfl (readln_seg cexCD _ (by decide))
      (show cexCD ≠ [] from by decide)
      (show parse_mime_header cexCD none none =
        some (some fileL, some ("a".toList)) from by decide) (Nat.le_refl _)
  have h3 : processLoopF
        (bCR :: bLF :: (cexRun ++ bCR :: bLF :: (cexClose ++ [bCR, bLF]))).length
        (⟨RecvState.RECV_HEADERS, cexBnd, some fileL,
          bCR :: bLF :: (cexRun ++ bCR :: bLF :: (cexClose ++ [bCR, bLF])), [], false,
          some ("a".toList), none⟩ : RecvFSM) =
      processLoopF (cexRun ++ bCR :: bLF :: (cexClose ++ [bCR, bLF])).length
        ⟨RecvState.RECV_CONTENT, cexBnd, some fileL,
          cexRun ++ bCR :: bLF :: (cexClose ++ [bCR, bLF]), [], false,
          some ("a".toList), some []⟩ :=
    step_headers_blank_file _ rfl (readln_crlf _)
      (show optStrEq (some fileL) fileL = true from by decide) (Nat.le_refl _)
  have h4 : processLoopF (cexRun ++ bCR :: bLF :: (cexClose ++ [bCR, bLF])).length
        (⟨RecvState.RECV_CONTENT, cexBnd, some fileL,
          cexRun ++ bCR :: bLF :: (cexClose ++ [bCR, bLF]), [], false,
          some ("a".toList), some []⟩ : RecvFSM) =
      processLoopF (cexClose ++ [bCR, bLF]).length
        ⟨RecvState.RECV_HEADERS, cexBnd, none, cexClose ++ [bCR, bLF], [], false,
          some ("a".toList), some []⟩ :=
    step_content_bound _ rfl (readln_seg cexRun _ cexRun_hasCRLF)
      (show strstrB cexRun cexBnd = true from cexRun_strstrB) (Nat.le_refl _)
  have h5 : processLoopF (cexClose ++ [bCR, bLF]).length
        (⟨RecvState.RECV_HEADERS, cexBnd, none, cexClose ++ [bCR, bLF], [], false,
          some ("a".toList), some []⟩ : RecvFSM) =
      ((⟨RecvState.RECV_HEADERS, cexBnd, none, [], [], false,
          some ("a".toList), some []⟩ : RecvFSM), Res.badreq) :=
    step_headers_badparse _ rfl (readln_seg cexClose [] (by decide))
      (show cexClose ≠ [] from by decide)
      (show parse_mime_header cexClose none (some ("a".toList)) = none from by decide)
      (Nat.le_refl _)
  have hchain := (((h1.trans h2).trans h3).trans h4).trans h5
  have herr : ¬ (initReq cexBnd 0).fsm.state = RecvState.RECV_ERROR := by
    intro h
    exact absurd (show RecvState.RECV_INIT = RecvState.RECV_ERROR from h) (by decide)
  rw [upload_read_cb_not_error cexBody herr]
  rw [show ({ (initReq cexBnd 0).fsm with
      line := (initReq cexBnd 0).fsm.line ++ cexBody } : RecvFSM) =
    (⟨RecvState.RECV_INIT, cexBnd, none, cexBody, [], false, none, none⟩ : RecvFSM)
    from rfl]
  rw [show (initReq cexBnd 0).fsm.line.length + cexBody.length = cexBody.length from by
    simp [initReq, initFSM]]
  rw [hchain]
  rfl

theorem runChunks_pair (st : ReqState) (a b : List Char) :
    runChunks st [a, b] = upload_read_cb (upload_read_cb st a) b := rfl

/-- The two-chunk delivery of `cexBody`: the long run fills the buffer
with no CRLF in sight, so `recv_file_data` flushes all of it — boundary
byte included — to the temp file; the second chunk then closes the part
normally. -/
theorem cex_chunked :
    (runChunks (initReq cexBnd 0) [cexChunk1, cexChunk2]).fsm.tmp_file = some cexRun := by
  have h1 : processLoopF cexChunk1.length
        (⟨RecvState.RECV_INIT, cexBnd, none, cexChunk1, [], false, none, none⟩ : RecvFSM) =
      processLoopF (cexCD ++ bCR :: bLF :: bCR :: bLF :: cexRun).length
        ⟨RecvState.RECV_HEADERS, cexBnd, none,
          cexCD ++ bCR :: bLF :: bCR :: bLF :: cexRun, [], false, none, none⟩ :=
    step_init cexChunk1.length rfl (readln_seg cexL1 _ (by decide))
      (show strstrB cexL1 cexBnd = true from by decide) (Nat.le_refl _)
  have h2 : processLoopF (cexCD ++ bCR :: bLF :: bCR :: bLF :: cexRun).length
        (⟨RecvState.RECV_HEADERS, cexBnd, none,
          cexCD ++ bCR :: bLF :: bCR :: bLF :: cexRun, [], false, none, none⟩ : RecvFSM) =
      processLoopF (bCR :: bLF :: cexRun).length
        ⟨RecvState.RECV_HEADERS, cexBnd, some fileL, bCR :: bLF :: cexRun, [], false,
          some ("a".toList), none⟩ :=
    step_headers_line _ rfl (readln_seg cexCD _ (by decide))
      (show cexCD ≠ [] from by decide)
      (show parse_mime_header cexCD none none =
        some (some fileL, some ("a".toList)) from by decide) (Nat.le_refl _)
  have h3 : processLoopF (bCR :: bLF :: cexRun).length
        (⟨RecvState.RECV_HEADERS, cexBnd, some fileL, bCR :: bLF :: cexRun, [], false,
          some ("a".toList), none⟩ : RecvFSM) =
      processLoopF cexRun.length
        ⟨RecvState.RECV_CONTENT, cexBnd, some fileL, cexRun, [], false,
          some ("a".toList), some []⟩ :=
    step_headers_blank_file _ rfl (readln_crlf _)
      (show optStrEq (some fileL) fileL = true from by decide) (Nat.le_refl _)
  have h4 : processLoopF cexRun.length
        (⟨RecvState.RECV_CONTENT, cexBnd, some fileL, cexRun, [], false,
          some ("a".toList), some []⟩ : RecvFSM) =
      ((⟨RecvState.RECV_CONTENT, cexBnd, some fileL, [], [], false,
          some ("a".toList), some ([] ++ ([] ++ cexRun))⟩ : RecvFSM), Res.ok) := by
    have := @step_file_flush ⟨RecvState.RECV_CONTENT, cexBnd, some fileL, cexRun,
        [], false, some ("a".toList), some []⟩ cexRun.length rfl
      (readln_none_of_hasCRLF cexRun_hasCRLF)
      (show optStrEq (some fileL) fileL = true from by decide)
      (by rw [show (⟨RecvState.RECV_CONTENT, cexBnd, some fileL, cexRun, [], false,
          some ("a".toList), some []⟩ : RecvFSM).line.length = 10240 from cexRun_length]
          decide)
      (by rw [cexRun_length]; decide)
    rw [this]
    rfl
  have hchain1 := ((h1.trans h2).trans h3).trans h4
  have herr : ¬ (initReq cexBnd 0).fsm.state = RecvState.RECV_ERROR := by
    intro h
    exact absurd (show RecvState.RECV_INIT = RecvState.RECV_ERROR from h) (by decide)
  have hst1 : upload_read_cb (initReq cexBnd 0) cexChunk1 =
      (⟨⟨RecvState.RECV_CONTENT, cexBnd, some fileL, [], [], false,
          some ("a".toList), some ([] ++ ([] ++ cexRun))⟩,
        ⟨0 + (cexChunk1.length : Int), 0⟩⟩ : ReqState) := by
    rw [upload_read_cb_not_error cexChunk1 herr]
    rw [show ({ (initReq cexBnd 0).fsm with
        line := (initReq cexBnd 0).fsm.line ++ cexChunk1 } : RecvFSM) =
      (⟨RecvState.RECV_INIT, cexBnd, none, cexChunk1, [], false, none, none⟩ : RecvFSM)
      from rfl]
    rw [show (initReq cexBnd 0).fsm.line.length + cexChunk1.length = cexChunk1.length from by
      simp [initReq, initFSM]]
    rw [hchain1]
    rfl
  -- second chunk
  have h5 : processLoopF cexChunk2.length
        (⟨RecvState.RECV_CONTENT, cexBnd, some fileL, cexChunk2, [], false,
          some ("a".toList), some ([] ++ ([] ++ cexRun))⟩ : RecvFSM) =
      processLoopF (cexClose ++ [bCR, bLF]).length
        ⟨RecvState.RECV_CONTENT, cexBnd, some fileL, cexClose ++ [bCR, bLF], [], true,
          some ("a".toList), some (([] ++ ([] ++ cexRun)) ++ ([] ++ []))⟩ := by
    have := @step_file_data ⟨RecvState.RECV_CONTENT, cexBnd, some fileL, cexChunk2,
        [], false, some ("a".toList), some ([] ++ ([] ++ cexRun))⟩
      [] (cexClose ++ [bCR, bLF]) cexChunk2.length rfl
      (readln_crlf _)
      (show optStrEq (some fileL) fileL = true from by decide)
      (show strstrB [] cexBnd = false from by decide) (Nat.le_refl _)
    rw [this]
    rfl
  have h6 : processLoopF (cexClose ++ [bCR, bLF]).length
        (⟨RecvState.RECV_CONTENT, cexBnd, some fileL, cexClose ++ [bCR, bLF], [], true,
          some ("a".toList), some (([] ++ ([] ++ cexRun)) ++ ([] ++ []))⟩ : RecvFSM) =
      processLoopF ([] : List Char).length
        ⟨RecvState.RECV_HEADERS, cexBnd, none, [], [], true,
          some ("a".toList), some (([] ++ ([] ++ cexRun)) ++ ([] ++ []))⟩ :=
    step_content_bound _ rfl (readln_seg cexClose [] (by decide))
      (show strstrB cexClose cexBnd = true from by decide) (Nat.le_refl _)
  have hchain2 := h5.trans h6
  rw [runChunks_pair, hst1]
  have herr2 : ¬ (⟨⟨RecvState.RECV_CONTENT, cexBnd, some fileL, [], [], false,
      some ("a".toList), some ([] ++ ([] ++ cexRun))⟩,
      ⟨0 + (cexChunk1.length : Int), 0⟩⟩ : ReqState).fsm.state = RecvState.RECV_ERROR := by
    intro h
    exact absurd (show RecvState.RECV_CONTENT = RecvState.RECV_ERROR from h) (by decide)
  rw [upload_read_cb_not_error cexChunk2 herr2]
  rw [show ({ (⟨⟨RecvState.RECV_CONTENT, cexBnd, some fileL, [], [], false,
      some ("a".toList), some ([] ++ ([] ++ cexRun))⟩,
      ⟨0 + (cexChunk1.length : Int), 0⟩⟩ : ReqState).fsm with
      line := (⟨⟨RecvState.RECV_CONTENT, cexBnd, some fileL, [], [], false,
        some ("a".toList), some ([] ++ ([] ++ cexRun))⟩,
        ⟨0 + (cexChunk1.length : Int), 0⟩⟩ : ReqState).fsm.line ++ cexChunk2 } : RecvFSM) =
    (⟨RecvState.RECV_CONTENT, cexBnd, some fileL, cexChunk2, [], false,
      some ("a".toList), some ([] ++ ([] ++ cexRun))⟩ : RecvFSM) from rfl]
  rw [show (⟨⟨RecvState.RECV_CONTENT, cexBnd, some fileL, [], [], false,
      some ("a".toList), some ([] ++ ([] ++ cexRun))⟩,
      ⟨0 + (cexChunk1.length : Int), 0⟩⟩ : ReqState).fsm.line.length + cexChunk2.length =
    cexChunk2.length from by simp]
  rw [hchain2]
  simp [processLoopF]

/-- Claim C2 as stated is false: delivering `cexBody` in the two chunks
`cexChunk1 ++ cexChunk2 = cexBody` produces a different temp file than
the single-shot delivery (10240 bytes versus 0). -/
theorem c2_counterexample :
    cexChunk1 ++ cexChunk2 = cexBody ∧
      (runChunks (initReq cexBnd 0) [cexChunk1, cexChunk2]).fsm.tmp_file ≠
        (upload_read_cb (initReq cexBnd 0) cexBody).fsm.tmp_file := by
  refine ⟨rfl, ?_⟩
  rw [cex_chunked, cex_single_shot]
  intro h
  exact cexRun_ne_nil (by simpa using h)

/-- Witness for `c1_roundtrip`: a concrete `parent_dir` value and a file
payload with an internal CRLF round-trip through the receive machine. -/
theorem c1_roundtrip_witness :
    ((∀ c ∈ ("/docs".toList), ¬ c = bNUL) ∧
        hasCRLF ("/docs".toList) = false ∧ strstrB ("/docs".toList) bnd1 = false ∧
        ∀ s ∈ splitCRLF ("hello\r\nworld".toList), strstrB s bnd1 = false) ∧
      (kvLookup (upload_read_cb (initReq bnd1 3)
            (uploadBody ("/docs".toList) ("hello\r\nworld".toList))).fsm.form_kvs
          parentDirL = some ("/docs".toList) ∧
        (upload_read_cb (initReq bnd1 3)
            (uploadBody ("/docs".toList) ("hello\r\nworld".toList))).fsm.tmp_file =
          some ("hello\r\nworld".toList)) :=
  ⟨⟨by decide, by decide, by decide, by decide⟩,
    c1_roundtrip 3 ("/docs".toList) ("hello\r\nworld".toList)
      (by decide) (by decide) (by decide) (by decide)⟩

/-- Claim C2, amended: chunk-boundary independence does hold whenever the
whole body is shorter than `MAX_CONTENT_LINE`, so the flush path of
`recv_file_data` is never taken: every chunking then produces the same
temp-file contents and the same `form_kvs` as single-shot delivery. -/
theorem c2_bounded_equiv (bnd : List Char) (cl : Int) (chunks : List (List Char))
    (hlen : (chunksJoin chunks).length < MAX_CONTENT_LINE) :
    (runChunks (initReq bnd cl) chunks).fsm.tmp_file =
        (upload_read_cb (initReq bnd cl) (chunksJoin chunks)).fsm.tmp_file ∧
      (runChunks (initReq bnd cl) chunks).fsm.form_kvs =
        (upload_read_cb (initReq bnd cl) (chunksJoin chunks)).fsm.form_kvs := by
  apply runChunks_eq_single
  · right
    refine ⟨by simp [initReq, initFSM, readln], ?_⟩
    intro hst
    exact absurd hst (by simp [initReq, initFSM])
  · simpa [initReq, initFSM] using hlen

/-- Witness for `c2_bounded_equiv`: a two-chunk split of a small body,
cutting the body in the middle of a CRLF pair. -/
theorem c2_bounded_equiv_witness :
    (chunksJoin ["--B\r\n\r".toList, "\n--B--\r\n".toList]).length < MAX_CONTENT_LINE ∧
      ((runChunks (initReq ("B".toList) 0)
            ["--B\r\n\r".toList, "\n--B--\r\n".toList]).fsm.tmp_file =
          (upload_read_cb (initReq ("B".toList) 0)
            (chunksJoin ["--B\r\n\r".toList, "\n--B--\r\n".toList])).fsm.tmp_file ∧
        (runChunks (initReq ("B".toList) 0)
            ["--B\r\n\r".toList, "\n--B--\r\n".toList]).fsm.form_kvs =
          (upload_read_cb (initReq ("B".toList) 0)
            (chunksJoin ["--B\r\n\r".toList, "\n--B--\r\n".toList])).fsm.form_kvs) :=
  ⟨by decide, c2_bounded_equiv ("B".toList) 0
    ["--B\r\n\r".toList, "\n--B--\r\n".toList] (by decide)⟩

/-- Claim C3 as stated is false: a request that reaches `upload_cb`
without a file part but also without a `parent_dir` field is rejected
with BadRequest by the earlier `parent_dir` check, not with
`ERROR_RECV`. -/
theorem c3_counterexample :
    ((upload_read_cb (initReq ("B".toList) 0) ("--B\r\n".toList)).fsm.state ≠
        RecvState.RECV_ERROR ∧
      (upload_read_cb (initReq ("B".toList) 0) ("--B\r\n".toList)).fsm.tmp_file = none) ∧
      upload_cb ⟨true, some [], none⟩
          (some (upload_read_cb (initReq ("B".toList) 0) ("--B\r\n".toList)).fsm) ≠
        Reply.uploadErr ERROR_RECV := by
  decide

/-- Claim C3, amended: a request that reaches `upload_cb` in a
non-error state with a `parent_dir` field but no temp file (the file
part never arrived) is rejected with `ERROR_RECV`; without the
`parent_dir` field the earlier check answers BadRequest instead. -/
theorem c3_no_file_recv (env : Backend) (fsm : RecvFSM) (pd : List Char)
    (hst : fsm.state ≠ RecvState.RECV_ERROR)
    (hpd : kvLookup fsm.form_kvs parentDirL = some pd)
    (htmp : fsm.tmp_file = none) :
    upload_cb env (some fsm) = Reply.uploadErr ERROR_RECV := by
  simp [upload_cb, hst, hpd, htmp]

/-- Witness for `c3_no_file_recv`: a headers-state FSM holding a
`parent_dir` field and no temp file. -/
theorem c3_no_file_recv_witness :
    ((⟨RecvState.RECV_HEADERS, "B".toList, none, [], [(parentDirL, "/d".toList)],
          false, none, none⟩ : RecvFSM).state ≠ RecvState.RECV_ERROR ∧
      kvLookup (⟨RecvState.RECV_HEADERS, "B".toList, none, [],
          [(parentDirL, "/d".toList)], false, none, none⟩ : RecvFSM).form_kvs
        parentDirL = some ("/d".toList) ∧
      (⟨RecvState.RECV_HEADERS, "B".toList, none, [], [(parentDirL, "/d".toList)],
          false, none, none⟩ : RecvFSM).tmp_file = none) ∧
      upload_cb ⟨true, some [], none⟩
          (some ⟨RecvState.RECV_HEADERS, "B".toList, none, [],
            [(parentDirL, "/d".toList)], false, none, none⟩) =
        Reply.uploadErr ERROR_RECV :=
  ⟨⟨by decide, by decide, by decide⟩,
    c3_no_file_recv ⟨true, some [], none⟩
      ⟨RecvState.RECV_HEADERS, "B".toList, none, [], [(parentDirL, "/d".toList)],
        false, none, none⟩ ("/d".toList) (by decide) (by decide) (by decide)⟩

/-- Claim C4 as stated is false: a part whose headers carry no
Content-Disposition line at all parses fine and enters `RECV_CONTENT`
with `input_name` still unset. -/
theorem c4_counterexample :
    (upload_read_cb (initReq ("B".toList) 0)
          ("--B\r\nX: y\r\n\r\n".toList)).fsm.state = RecvState.RECV_CONTENT ∧
      (upload_read_cb (initReq ("B".toList) 0)
          ("--B\r\nX: y\r\n\r\n".toList)).fsm.input_name = none := by
  decide

/-- Claim C4, amended: whenever `parse_mime_header` succeeds on a line
whose header name is exactly `Content-Disposition`, the returned
`input_name` is set; only parts with no Content-Disposition header can
enter `RECV_CONTENT` with `input_name` unset. -/
theorem c4_cd_sets_input_name (header rest : List Char) (inm fnm : Option (List Char))
    (out : Option (List Char) × Option (List Char))
    (hcd : splitAtChar ':' (cstr header) = some (cdHeaderL, rest))
    (hp : parse_mime_header header inm fnm = some out) :
    out.1.isSome = true := by
  rw [parse_mime_header, hcd] at hp
  simp only [if_pos rfl] at hp
  by_cases h1 : (List.map stripL (List.splitOn ';' rest)).length < 2
  · rw [if_pos h1] at hp
    exact Option.noConfusion hp
  rw [if_neg h1] at hp
  by_cases h2 : caseEqFull ((List.map stripL (List.splitOn ';' rest)).headD [])
      formDataL = false
  · rw [if_pos h2] at hp
    exact Option.noConfusion hp
  rw [if_neg h2] at hp
  cases hin : (match findParamLoop nameKeyL 4 (List.map stripL (List.splitOn ';' rest)) with
      | some p => get_mime_header_param_value p
      | none => inm) with
  | none =>
    simp only [hin] at hp
    simp at hp
  | some iv =>
    simp only [hin] at hp
    by_cases h3 : cstr iv = fileL
    · rw [if_pos h3] at hp
      cases hfn : (match findParamLoop filenameKeyL 8
            (List.map stripL (List.splitOn ';' rest)) with
          | some p => get_mime_header_param_value p
          | none => fnm) with
      | none =>
        simp only [hfn] at hp
        simp at hp
      | some fv =>
        simp only [hfn] at hp
        obtain rfl := Option.some.inj hp
        rfl
    · rw [if_neg h3] at hp
      obtain rfl := Option.some.inj hp
      rfl

/-- Witness for `c4_cd_sets_input_name`: a concrete
`Content-Disposition` header with a `name` parameter. -/
theorem c4_cd_sets_input_name_witness :
    (splitAtChar ':'
          (cstr ("Content-Disposition: form-data; name=\"parent_dir\"".toList)) =
        some (cdHeaderL, " form-data; name=\"parent_dir\"".toList) ∧
      parse_mime_header ("Content-Disposition: form-data; name=\"parent_dir\"".toList)
          none none = some (some ("parent_dir".toList), none)) ∧
      (some ("parent_dir".toList), (none : Option (List Char))).1.isSome = true :=
  ⟨⟨by decide, by decide⟩,
    c4_cd_sets_input_name ("Content-Disposition: form-data; name=\"parent_dir\"".toList)
      (" form-data; name=\"parent_dir\"".toList) none none
      (some ("parent_dir".toList), none) (by decide) (by decide)⟩

/-- A non-colliding current name ends the loop at once. -/
theorem genLoop_free (entries : List (List Char)) (n : List Char) (e : Option (List Char)) :
    ∀ (f i : Nat) (u : List Char), filename_exists entries u = false →
      genLoop entries n e f i u = u := by
  intro f i u h
  cases f with
  | zero => rfl
  | succ f => simp [genLoop, h]

/-- Running the loop from index `i` when the current name collides,
candidates `i..i+c-1` collide and candidate `i+c ≤ 16` is free returns
candidate `i+c`. -/
theorem genLoop_mid (entries : List (List Char)) (n : List Char) (e : Option (List Char)) :
    ∀ (c i : Nat) (u : List Char) (f : Nat),
      1 ≤ i → i + c ≤ 16 → i + f = 18 →
      filename_exists entries u = true →
      (∀ k, i ≤ k → k < i + c → filename_exists entries (mkCand n e k) = true) →
      filename_exists entries (mkCand n e (i + c)) = false →
      genLoop entries n e f i u = mkCand n e (i + c) := by
  intro c
  induction c with
  | zero =>
    intro i u f hi h16 hf hu hcoll hfree
    obtain ⟨g, rfl⟩ : ∃ g, f = g + 1 := ⟨f - 1, by omega⟩
    have hstep : genLoop entries n e (g + 1) i u =
        genLoop entries n e g (i + 1) (mkCand n e i) := by
      simp [genLoop, hu, show i ≤ 16 by omega]
    rw [hstep]
    have := genLoop_free entries n e g (i + 1) (mkCand n e i) (by simpa using hfree)
    simpa using this
  | succ c ih =>
    intro i u f hi h16 hf hu hcoll hfree
    obtain ⟨g, rfl⟩ : ∃ g, f = g + 1 := ⟨f - 1, by omega⟩
    have hstep : genLoop entries n e (g + 1) i u =
        genLoop entries n e g (i + 1) (mkCand n e i) := by
      simp [genLoop, hu, show i ≤ 16 by omega]
    rw [hstep]
    have heq : i + 1 + c = i + (c + 1) := by omega
    rw [show mkCand n e (i + (c + 1)) = mkCand n e (i + 1 + c) from by rw [heq]]
    exact ih (i + 1) (mkCand n e i) g (by omega) (by omega) (by omega)
      (hcoll i (Nat.le_refl i) (by omega))
      (fun k hk1 hk2 => hcoll k (by omega) (by omega))
      (by rw [heq]; exact hfree)

/-- When every candidate up to the 15th collides, the loop runs to
`i = 17` and returns the 16th candidate regardless of its status. -/
theorem genLoop_all (entries : List (List Char)) (n : List Char) (e : Option (List Char)) :
    ∀ (f i : Nat) (u : List Char),
      1 ≤ i → i ≤ 16 → i + f = 18 →
      filename_exists entries u = true →
      (∀ k, i ≤ k → k ≤ 15 → filename_exists entries (mkCand n e k) = true) →
      genLoop entries n e f i u = mkCand n e 16 := by
  intro f
  induction f with
  | zero =>
    intro i u hi h16 hf hu hcoll
    omega
  | succ f ih =>
    intro i u hi h16 hf hu hcoll
    have hstep : genLoop entries n e (f + 1) i u =
        genLoop entries n e f (i + 1) (mkCand n e i) := by
      simp [genLoop, hu, h16]
    rw [hstep]
    by_cases h : i = 16
    · subst h
      have hg : f = 1 := by omega
      subst hg
      simp [genLoop]
    · exact ih (i + 1) (mkCand n e i) (by omega) (by omega) (by omega)
        (hcoll i (Nat.le_refl i) (by omega))
        (fun k hk1 hk2 => hcoll k (by omega) hk2)

/-- Claim C5: `gen_unique_filename` returns the submitted filename when
it does not collide; otherwise the first non-colliding candidate
`name (i).ext` (`i = 1..16`, extension = suffix after the last dot);
and when candidates 1..15 all collide it returns the 16th candidate
whether or not that one collides. -/
theorem c5_gen_unique_filename (entries : List (List Char)) (filename : List Char) :
    (filename_exists entries filename = false →
        gen_unique_filename entries filename = filename) ∧
      (∀ j, 1 ≤ j → j ≤ 16 →
        filename_exists entries filename = true →
        (∀ k, 1 ≤ k → k < j → filename_exists entries (candidate filename k) = true) →
        filename_exists entries (candidate filename j) = false →
        gen_unique_filename entries filename = candidate filename j) ∧
      (filename_exists entries filename = true →
        (∀ k, 1 ≤ k → k ≤ 15 → filename_exists entries (candidate filename k) = true) →
        gen_unique_filename entries filename = candidate filename 16) := by
  have hcand : ∀ k, 1 ≤ k → candidate filename k =
      mkCand (split_filename filename).1 (split_filename filename).2 k := by
    intro k hk
    obtain ⟨m, rfl⟩ : ∃ m, k = m + 1 := ⟨k - 1, by omega⟩
    rfl
  refine ⟨?_, ?_, ?_⟩
  · intro h
    exact genLoop_free entries _ _ 17 1 filename h
  · intro j h1 h16 hf hcoll hfree
    show genLoop entries (split_filename filename).1 (split_filename filename).2
      17 1 filename = candidate filename j
    rw [hcand j h1]
    have := genLoop_mid entries (split_filename filename).1 (split_filename filename).2
      (j - 1) 1 filename 17 (Nat.le_refl 1) (by omega) (by omega) hf
      (fun k hk1 hk2 => by
        have h := hcoll k hk1 (by omega)
        rwa [hcand k hk1] at h)
      (by
        have h9 : 1 + (j - 1) = j := by omega
        rw [h9, ← hcand j h1]
        exact hfree)
    rwa [show 1 + (j - 1) = j from by omega] at this
  · intro hf hcoll
    show genLoop entries (split_filename filename).1 (split_filename filename).2
      17 1 filename = candidate filename 16
    rw [hcand 16 (by omega)]
    exact genLoop_all entries _ _ 17 1 filename (Nat.le_refl 1) (by omega) (by omega) hf
      (fun k hk1 hk2 => by
        have h := hcoll k hk1 hk2
        rwa [hcand k hk1] at h)

/-- Witness for `c5_gen_unique_filename`: `a.txt` and `a (1).txt` exist,
so the upload is stored as `a (2).txt`. -/
theorem c5_gen_unique_filename_witness :
    ((1 : Nat) ≤ 2 ∧ (2 : Nat) ≤ 16 ∧
      filename_exists ["a.txt".toList, "a (1).txt".toList] ("a.txt".toList) = true ∧
      (∀ k, 1 ≤ k → k < 2 →
        filename_exists ["a.txt".toList, "a (1).txt".toList]
          (candidate ("a.txt".toList) k) = true) ∧
      filename_exists ["a.txt".toList, "a (1).txt".toList]
        (candidate ("a.txt".toList) 2) = false) ∧
      gen_unique_filename ["a.txt".toList, "a (1).txt".toList] ("a.txt".toList) =
        candidate ("a.txt".toList) 2 :=
  ⟨⟨by decide, by decide, by decide,
      fun k hk1 hk2 => by
        have hk : k = 1 := by omega
        subst hk
        decide,
      by decide⟩,
    (c5_gen_unique_filename ["a.txt".toList, "a (1).txt".toList] ("a.txt".toList)).2.1 2
      (by decide) (by decide) (by decide)
      (fun k hk1 hk2 => by
        have hk : k = 1 := by omega
        subst hk
        decide)
      (by decide)⟩

/-- Removing a key from the registry makes its lookup fail. -/
theorem regLookup_regRemove (reg : List (List Char × Progress)) (k : List Char) :
    regLookup (regRemove reg k) k = none := by
  induction reg with
  | nil => rfl
  | cons e t ih =>
    by_cases h : e.1 = k
    · simpa [regRemove, List.filter_cons, h] using ih
    · simpa [regRemove, List.filter_cons, h, regLookup] using ih

/-- Claim C6: on every termination path `upload_finish_cb` runs; after
it returns, no progress entry remains for the request's id and the temp
file, when one was created, is no longer on disk. -/
theorem c6_finish_cleanup (reg : List (List Char × Progress)) (disk : List (List Char))
    (f : FinishInfo) :
    regLookup (upload_finish_cb reg disk (some f)).1 f.progress_id = none ∧
      ∀ p, f.tmp_file = some p → p ∉ (upload_finish_cb reg disk (some f)).2 := by
  constructor
  · exact regLookup_regRemove reg f.progress_id
  · intro p hp
    simp [upload_finish_cb, hp, diskUnlink, List.mem_filter]

/-- Witness for `c6_finish_cleanup`: one registered request with a temp
file on disk. -/
theorem c6_finish_cleanup_witness :
    regLookup (upload_finish_cb [("id1".toList, ⟨3, 7⟩)] ["/tmp/u1".toList]
        (some ⟨some ("/tmp/u1".toList), "id1".toList⟩)).1 ("id1".toList) = none ∧
      "/tmp/u1".toList ∉ (upload_finish_cb [("id1".toList, ⟨3, 7⟩)] ["/tmp/u1".toList]
        (some ⟨some ("/tmp/u1".toList), "id1".toList⟩)).2 :=
  ⟨(c6_finish_cleanup [("id1".toList, ⟨3, 7⟩)] ["/tmp/u1".toList]
      ⟨some ("/tmp/u1".toList), "id1".toList⟩).1,
    (c6_finish_cleanup [("id1".toList, ⟨3, 7⟩)] ["/tmp/u1".toList]
      ⟨some ("/tmp/u1".toList), "id1".toList⟩).2 ("/tmp/u1".toList) rfl⟩

/-- A chunk arriving in a non-error state bumps `uploaded` by its
length (the update precedes all parsing, so it happens even when the
chunk itself then fails to parse). -/
theorem upload_read_cb_uploaded (st : ReqState) (buf : List Char)
    (h : st.fsm.state ≠ RecvState.RECV_ERROR) :
    (upload_read_cb st buf).progress.uploaded =
      st.progress.uploaded + (buf.length : Int) := by
  rw [upload_read_cb_not_error buf h]
  split <;> rfl

/-- The read callback never touches `progress.size`. -/
theorem upload_read_cb_size (st : ReqState) (buf : List Char) :
    (upload_read_cb st buf).progress.size = st.progress.size := by
  by_cases h : st.fsm.state = RecvState.RECV_ERROR
  · rw [upload_read_cb_error buf h]
  · rw [upload_read_cb_not_error buf h]
    split <;> rfl

/-- `uploaded` never decreases across a chunk. -/
theorem upload_read_cb_mono (st : ReqState) (buf : List Char) :
    st.progress.uploaded ≤ (upload_read_cb st buf).progress.uploaded := by
  by_cases h : st.fsm.state = RecvState.RECV_ERROR
  · rw [upload_read_cb_error buf h]
  · rw [upload_read_cb_uploaded st buf h]
    have hn : (0 : Int) ≤ (buf.length : Int) := Int.ofNat_nonneg _
    omega

/-- `progress.size` is preserved across any chunk sequence. -/
theorem runChunks_size : ∀ (chunks : List (List Char)) (st : ReqState),
    (runChunks st chunks).progress.size = st.progress.size := by
  intro chunks
  induction chunks with
  | nil => intro st; rfl
  | cons c cs ih =>
    intro st
    show (runChunks (upload_read_cb st c) cs).progress.size = st.progress.size
    rw [ih (upload_read_cb st c), upload_read_cb_size st c]

/-- When the request never errored, `uploaded` grows by exactly the
total length of the delivered chunks (error states are absorbing, so a
non-error final state means no chunk was skipped). -/
theorem runChunks_uploaded : ∀ (chunks : List (List Char)) (st : ReqState),
    (runChunks st chunks).fsm.state ≠ RecvState.RECV_ERROR →
    (runChunks st chunks).progress.uploaded =
      st.progress.uploaded + ((chunksJoin chunks).length : Int) := by
  intro chunks
  induction chunks with
  | nil =>
    intro st h
    show st.progress.uploaded = st.progress.uploaded + ((chunksJoin []).length : Int)
    simp [chunksJoin]
  | cons c cs ih =>
    intro st h
    have hh : (runChunks (upload_read_cb st c) cs).fsm.state ≠ RecvState.RECV_ERROR := h
    have hmid : (upload_read_cb st c).fsm.state ≠ RecvState.RECV_ERROR := by
      intro he
      apply hh
      rw [runChunks_error cs he]
      exact he
    have hst : st.fsm.state ≠ RecvState.RECV_ERROR := by
      intro he
      exact hmid (by rw [upload_read_cb_error c he]; exact he)
    show (runChunks (upload_read_cb st c) cs).progress.uploaded = _
    rw [ih (upload_read_cb st c) hh, upload_read_cb_uploaded st c hst]
    have hlen : ((chunksJoin (c :: cs)).length : Int) =
        (c.length : Int) + ((chunksJoin cs).length : Int) := by
      simp [chunksJoin]
    rw [hlen]
    omega

/-- Claim C7: each chunk received in a non-error state adds exactly its
byte length to `progress.uploaded` before any parsing; `uploaded` is
monotone in every case and `size` untouched; and on a normal (non-error)
completion the final `uploaded` equals the total of the delivered body
bytes, hence equals the declared Content-Length when that total matches
it. -/
theorem c7_progress_accounting (st : ReqState) (buf : List Char)
    (bnd : List Char) (cl : Int) (chunks : List (List Char)) :
    (st.fsm.state ≠ RecvState.RECV_ERROR →
        (upload_read_cb st buf).progress.uploaded =
          st.progress.uploaded + (buf.length : Int)) ∧
      st.progress.uploaded ≤ (upload_read_cb st buf).progress.uploaded ∧
      (upload_read_cb st buf).progress.size = st.progress.size ∧
      ((runChunks (initReq bnd cl) chunks).fsm.state ≠ RecvState.RECV_ERROR →
        (runChunks (initReq bnd cl) chunks).progress.uploaded =
            ((chunksJoin chunks).length : Int) ∧
          (((chunksJoin chunks).length : Int) = cl →
            (runChunks (initReq bnd cl) chunks).progress.uploaded =
              (runChunks (initReq bnd cl) chunks).progress.size)) := by
  refine ⟨fun h => upload_read_cb_uploaded st buf h, upload_read_cb_mono st buf,
    upload_read_cb_size st buf, fun h => ?_⟩
  have h1 := runChunks_uploaded chunks (initReq bnd cl) h
  have h2 : (initReq bnd cl).progress.uploaded = 0 := rfl
  have hsize : (runChunks (initReq bnd cl) chunks).progress.size = cl :=
    runChunks_size chunks (initReq bnd cl)
  rw [h1, h2, hsize]
  constructor
  · omega
  · intro hcl
    omega

/-- Witness for `c7_progress_accounting`: two 2-byte chunks against a
declared Content-Length of 4. -/
theorem c7_progress_accounting_witness :
    ((initReq ("B".toList) 4).fsm.state ≠ RecvState.RECV_ERROR ∧
      (runChunks (initReq ("B".toList) 4) ["ab".toList, "cd".toList]).fsm.state ≠
        RecvState.RECV_ERROR ∧
      ((chunksJoin ["ab".toList, "cd".toList]).length : Int) = 4) ∧
      ((upload_read_cb (initReq ("B".toList) 4) ("ab".toList)).progress.uploaded =
          (initReq ("B".toList) 4).progress.uploaded + (("ab".toList).length : Int) ∧
        (runChunks (initReq ("B".toList) 4) ["ab".toList, "cd".toList]).progress.uploaded =
          (runChunks (initReq ("B".toList) 4) ["ab".toList, "cd".toList]).progress.size) :=
  ⟨⟨by decide, by decide, by decide⟩,
    ⟨(c7_progress_accounting (initReq ("B".toList) 4) ("ab".toList) ("B".toList) 4
        ["ab".toList, "cd".toList]).1 (by decide),
      ((c7_progress_accounting (initReq ("B".toList) 4) ("ab".toList) ("B".toList) 4
        ["ab".toList, "cd".toList]).2.2.2 (by decide)).2 (by decide)⟩⟩

/-- Claim C8: the progress endpoint replies BadRequest when the
`X-Progress-ID` query parameter is missing, when `callback` is missing,
or when no progress entry exists for the id; otherwise it replies 200
with body exactly `<callback>(\x7b"uploaded": <u>, "length": <s>\x7d);`
for the entry's values. -/
theorem c8_progress_reply (reg : List (List Char × Progress)) (pid cb : List Char)
    (prog : Progress) (ocb : Option (List Char)) :
    upload_progress_cb reg none ocb = ProgressReply.badReq ∧
      upload_progress_cb reg (some pid) none = ProgressReply.badReq ∧
      (regLookup reg pid = none →
        upload_progress_cb reg (some pid) (some cb) = ProgressReply.badReq) ∧
      (regLookup reg pid = some prog →
        upload_progress_cb reg (some pid) (some cb) =
          ProgressReply.okBody (jsonpBody cb prog.uploaded prog.size)) := by
  refine ⟨rfl, rfl, fun h => ?_, fun h => ?_⟩
  · simp [upload_progress_cb, h]
  · simp [upload_progress_cb, h]

/-- Witness for `c8_progress_reply`: one registered upload. -/
theorem c8_progress_reply_witness :
    regLookup [("p1".toList, ⟨2, 9⟩)] ("p1".toList) = some ⟨2, 9⟩ ∧
      upload_progress_cb [("p1".toList, ⟨2, 9⟩)] (some ("p1".toList))
        (some ("cb".toList)) = ProgressReply.okBody (jsonpBody ("cb".toList) 2 9) :=
  ⟨by decide,
    (c8_progress_reply [("p1".toList, ⟨2, 9⟩)] ("p1".toList) ("cb".toList)
      ⟨2, 9⟩ none).2.2.2 (by decide)⟩

/-- `takeWhile` keeps exactly a leading digit run. -/
theorem takeWhile_digits (ds rest : List Char) (hd : ∀ c ∈ ds, isDigitC c = true)
    (hr : ∀ c t, rest = c :: t → isDigitC c = false) :
    (ds ++ rest).takeWhile isDigitC = ds := by
  induction ds with
  | nil =>
    cases rest with
    | nil => rfl
    | cons c t => simp [List.takeWhile_cons, hr c t rfl]
  | cons d ds ih =>
    simp only [List.cons_append, List.takeWhile_cons, hd d (by simp), if_true]
    rw [ih (fun c hc => hd c (by simp [hc]))]

/-- `strtoll` on a value with no leading digits (and no sign) is 0. -/
theorem strtoll10_nodigit (s : List Char)
    (h0 : ((cstr s).dropWhile gisSpace).takeWhile isDigitC = [])
    (h1 : ∀ t, (cstr s).dropWhile gisSpace ≠ '-' :: t)
    (h2 : ∀ t, (cstr s).dropWhile gisSpace ≠ '+' :: t) :
    strtoll10 s = 0 := by
  rw [strtoll10]
  split
  · next t ht => exact absurd ht (h1 t)
  · next t ht => exact absurd ht (h2 t)
  · rw [h0]
    rfl

/-- `strtoll` on a digit run followed by garbage parses just the run. -/
theorem strtoll10_leadingRun (s ds rest : List Char)
    (hs : (cstr s).dropWhile gisSpace = ds ++ rest)
    (hd : ∀ c ∈ ds, isDigitC c = true) (hne : ds ≠ [])
    (hr : ∀ c t, rest = c :: t → isDigitC c = false) :
    strtoll10 s = clampLL ((natOfDigits ds : Int)) := by
  obtain ⟨d, ds2, rfl⟩ : ∃ d ds2, ds = d :: ds2 := by
    cases ds with
    | nil => exact absurd rfl hne
    | cons d ds2 => exact ⟨d, ds2, rfl⟩
  have hdd : isDigitC d = true := hd d (by simp)
  rw [strtoll10]
  split
  · next t ht =>
    rw [hs] at ht
    obtain ⟨rfl, -⟩ : d = '-' ∧ (ds2 ++ rest) = t := by
      constructor
      · exact (List.cons.injEq _ _ _ _ ▸ ht).1
      · exact (List.cons.injEq _ _ _ _ ▸ ht).2
    exact absurd hdd (by decide)
  · next t ht =>
    rw [hs] at ht
    obtain ⟨rfl, -⟩ : d = '+' ∧ (ds2 ++ rest) = t := by
      constructor
      · exact (List.cons.injEq _ _ _ _ ▸ ht).1
      · exact (List.cons.injEq _ _ _ _ ▸ ht).2
    exact absurd hdd (by decide)
  · rw [hs, takeWhile_digits (d :: ds2) rest hd hr]

/-- Claim C9: with a `Content-Length` header present,
`get_progress_info` always succeeds whatever the value: the value goes
through `strtoll` with no error check, so a digit-free value gives size
0 and a value with trailing garbage gives its leading numeric prefix —
never a BadRequest. -/
theorem c9_content_length_lenient (cl pid ds rest : List Char) :
    get_progress_info (some cl) (some pid) = some (strtoll10 cl, pid) ∧
      (((cstr cl).dropWhile gisSpace).takeWhile isDigitC = [] →
        (∀ t, (cstr cl).dropWhile gisSpace ≠ '-' :: t) →
        (∀ t, (cstr cl).dropWhile gisSpace ≠ '+' :: t) →
        strtoll10 cl = 0) ∧
      ((cstr cl).dropWhile gisSpace = ds ++ rest →
        (∀ c ∈ ds, isDigitC c = true) → ds ≠ [] →
        (∀ c t, rest = c :: t → isDigitC c = false) →
        strtoll10 cl = clampLL ((natOfDigits ds : Int))) :=
  ⟨rfl, strtoll10_nodigit cl, strtoll10_leadingRun cl ds rest⟩

/-- Witness for `c9_content_length_lenient`: `Content-Length: abc`
passes validation with size 0; `123xy` gives 123. -/
theorem c9_content_length_lenient_witness :
    (get_progress_info (some ("abc".toList)) (some ("p".toList)) =
        some (strtoll10 ("abc".toList), "p".toList) ∧
      strtoll10 ("abc".toList) = 0) ∧
      strtoll10 ("123xy".toList) = clampLL ((natOfDigits ("123".toList) : Int)) :=
  ⟨⟨(c9_content_length_lenient ("abc".toList) ("p".toList) [] []).1,
      (c9_content_length_lenient ("abc".toList) ("p".toList) [] []).2.1 (by decide)
        (fun t h => by
          have he : (cstr ("abc".toList)).dropWhile gisSpace = ['a', 'b', 'c'] := by decide
          rw [he] at h
          simp at h)
        (fun t h => by
          have he : (cstr ("abc".toList)).dropWhile gisSpace = ['a', 'b', 'c'] := by decide
          rw [he] at h
          simp at h)⟩,
    (c9_content_length_lenient ("123xy".toList) ("p".toList) ("123".toList)
        ("xy".toList)).2.2 (by decide) (by decide) (by decide)
      (fun c t h => by
        obtain ⟨h1, h2⟩ : 'x' = c ∧ ['y'] = t := by simpa using h
        subst h1
        decide)⟩


/-- `strncasecmp (p, key, |key|) == 0` is exactly case-insensitive
prefix matching. -/
theorem caseEqN_startsWith : ∀ (key q : List Char),
    caseEqN q key key.length = (key.map lowerC).isPrefixOf (q.map lowerC) := by
  intro key
  induction key with
  | nil =>
    intro q
    cases q <;> rfl
  | cons d u ih =>
    intro q
    cases q with
    | nil => rfl
    | cons c t =>
      have hL : caseEqN (c :: t) (d :: u) (d :: u).length =
          ((lowerC c == lowerC d) && caseEqN t u u.length) := rfl
      have hR : (List.map lowerC (d :: u)).isPrefixOf (List.map lowerC (c :: t)) =
          ((lowerC d == lowerC c) && (u.map lowerC).isPrefixOf (t.map lowerC)) := rfl
      rw [hL, hR, ih t]
      by_cases h : lowerC c = lowerC d
      · rw [h]
      · rw [show (lowerC c == lowerC d) = false from by simpa using h,
          show (lowerC d == lowerC c) = false from by simpa using fun e => h e.symm]

/-- Claim C10: parameter names are matched by case-insensitive prefix
only, with the first matching parameter winning: the scan's comparison
`strncasecmp(p, key, strlen(key))` is prefix matching after
lower-casing, the loop returns the first match, and concretely a
`boundaryXYZ` Content-Type parameter supplies the boundary, an
upper-case `NAME` parameter supplies the name, and a `filenameQQ`
parameter beats a later exact `filename`. -/
theorem c10_prefix_matching :
    (∀ key q, caseEqN q key key.length = (key.map lowerC).isPrefixOf (q.map lowerC)) ∧
      (∀ (key : List Char) (n : Nat) (p : List Char) (params : List (List Char)),
        caseEqN (cstr p) key n = true →
        findParamLoop key n (p :: params) = some p) ∧
      (∀ (key : List Char) (n : Nat) (p : List Char) (params : List (List Char)),
        caseEqN (cstr p) key n = false →
        findParamLoop key n (p :: params) = findParamLoop key n params) ∧
      get_boundary (some ("multipart/form-data; boundaryXYZ=b1; boundary=b2".toList)) =
        some ("b1".toList) ∧
      parse_mime_header ("Content-Disposition: form-data; NAME=\"parent_dir\"".toList)
          none none = some (some ("parent_dir".toList), none) ∧
      parse_mime_header ("Content-Disposition: form-data; name=\"file\"; filenameQQ=\"f1\"; filename=\"f2\"".toList)
          none none = some (some ("file".toList), some ("f1".toList)) := by
  refine ⟨caseEqN_startsWith, fun key n p params h => ?_, fun key n p params h => ?_,
    by decide, by decide, by decide⟩
  · simp [findParamLoop, h]
  · simp [findParamLoop, h]

/-- Witness for `c10_prefix_matching`: the prefix-named boundary
parameter wins over the exact one that follows. -/
theorem c10_prefix_matching_witness :
    caseEqN (cstr ("boundaryXYZ=b1".toList)) boundaryKeyL 8 = true ∧
      findParamLoop boundaryKeyL 8 ["boundaryXYZ=b1".toList, "boundary=b2".toList] =
        some ("boundaryXYZ=b1".toList) :=
  ⟨by decide,
    c10_prefix_matching.2.1 boundaryKeyL 8 ("boundaryXYZ=b1".toList)
      ["boundary=b2".toList] (by decide)⟩

end Upload
